import Mathlib

/-!
Verification of go-framework/queue: the reliable list queue and the typed dispatcher.

A shallow embedding of `redis_list_queue.go`, `redis_queue.go` and
`redis_queue_assistant.go`.

* Go strings are byte sequences (`GoString`).
* The Redis server behind `*redis.Client` is an explicit `Store` value that every
  queue method takes and returns; the five list commands the queue uses are
  embedded with their documented Redis behaviour.
* Every reading of `time.Now().Unix()` is taken from an explicit clock.
* The dispatcher (`RedisQueueAssistant.Done`) is a transition system whose
  actions are the atomic steps of the loop, of the job goroutines and of the
  environment (producers, the reader of the error channel, cancellation).
-/

namespace Queue

/-! ## Strings -/

/-- A Go string: an immutable sequence of bytes. -/
abbrev GoString := List UInt8

/-- Bytes of an ASCII literal. -/
def ascii (s : String) : GoString := s.toList.map (fun c => c.toNat.toUInt8)

/-- The constant `TimestampSeparator = ":@"`. -/
def TimestampSeparator : GoString := [58, 64]

/-- The constant `signQueueData = "#|"`. -/
def signQueueData : GoString := [35, 124]

/-- Go `strings.HasPrefix s p`. -/
def startsWith : GoString → GoString → Bool
  | _, [] => true
  | [], _ :: _ => false
  | c :: s, d :: p => c == d && startsWith s p

/-- Go `strings.Index s sep`: the byte offset of the first occurrence of `sep`
in `s`, `none` for Go's `-1`. -/
def Index : GoString → GoString → Option Nat
  | [], sep => if sep = [] then some 0 else none
  | c :: s, sep => if startsWith (c :: s) sep then some 0 else (Index s sep).map (· + 1)

/-- Go `strings.Contains s sep`. -/
def Contains (s sep : GoString) : Bool := (Index s sep).isSome

/-- The loop of Go `strings.genSplit` for a non-empty separator: at most `n`
cuts, each at the first occurrence of `sep` in what is left, stopping early as
soon as `Index` finds none. -/
def genSplit : Nat → GoString → GoString → List GoString
  | 0, s, _ => [s]
  | n + 1, s, sep =>
    match Index s sep with
    | none => [s]
    | some m => s.take m :: genSplit n (s.drop (m + sep.length)) sep

/-- Go `strings.Split s sep` for a non-empty `sep`. Go cuts `Count s sep` times
and never more than `len s` times; the loop stops at the first failed `Index`,
so `len s` is used as the bound. -/
def Split (s sep : GoString) : List GoString := genSplit s.length s sep

/-- Decimal digits of a natural number, most significant first. -/
def natDigits : Nat → Nat → GoString
  | 0, _ => []
  | fuel + 1, n =>
    if n < 10 then [(48 + n).toUInt8]
    else natDigits fuel (n / 10) ++ [(48 + n % 10).toUInt8]

/-- Go `fmt.Sprintf("%d", n)` for an `int64`. -/
def formatInt (n : Int) : GoString :=
  if n < 0 then 45 :: natDigits (n.natAbs + 1) n.natAbs else natDigits (n.natAbs + 1) n.natAbs

/-- Value of a string of decimal digits, `none` when a byte is not a digit. -/
def parseDigits : GoString → Nat → Option Nat
  | [], acc => some acc
  | c :: s, acc =>
    if 48 ≤ c.toNat ∧ c.toNat ≤ 57 then parseDigits s (acc * 10 + (c.toNat - 48)) else none

/-- Go `strconv.ParseInt(s, 10, 64)`: an optional sign followed by at least one
decimal digit, in the range of `int64`; `none` stands for a non-nil error. -/
def ParseInt (s : GoString) : Option Int :=
  let body : Bool × GoString :=
    match s with
    | 43 :: r => (false, r)
    | 45 :: r => (true, r)
    | r => (false, r)
  if body.2 = [] then none
  else
    match parseDigits body.2 0 with
    | none => none
    | some n =>
      let v : Int := if body.1 then -(n : Int) else (n : Int)
      if -(2 ^ 63 : Int) ≤ v ∧ v < (2 ^ 63 : Int) then some v else none

/-- Two's-complement wrap of an integer into `int64`. -/
def wrapInt64 (x : Int) : Int := (x + 2 ^ 63) % 2 ^ 64 - 2 ^ 63

/-! ## Errors -/

/-- Go `error` values that occur in the package. -/
inductive GoError where
  /-- The store's own "no element" reply, `redis.GoRedisNil`. -/
  | GoRedisNil
  /-- Modelled from the spec: `QueueNilErr` is declared outside the given files;
  it is the distinguished "queue empty" value, different from the store's. -/
  | QueueNilErr
  /-- The value of `errors.New text`. -/
  | New (text : String)
  /-- The value of `fmt.Errorf("%v", e)` for a recovered non-error `e`. -/
  | Errorf (text : String)
  deriving DecidableEq

/-! ## The store -/

/-- The key space of the store: the list-valued keys in scan order. -/
abbrev Store := List (GoString × List GoString)

namespace Store

/-- The list held at `k`; a missing key reads as the empty list. -/
def get : Store → GoString → List GoString
  | [], _ => []
  | (k', l) :: rest, k => if k' = k then l else get rest k

/-- Delete key `k`. -/
def erase (st : Store) (k : GoString) : Store := st.filter (fun e => decide (e.1 ≠ k))

/-- Overwrite the list at `k`, creating the key at the end when it is new. -/
def put : Store → GoString → List GoString → Store
  | [], k, l => [(k, l)]
  | (k', l') :: rest, k, l => if k' = k then (k, l) :: rest else (k', l') :: put rest k l

/-- Store `l` at `k`; Redis deletes a key whose list becomes empty. -/
def set (st : Store) (k : GoString) (l : List GoString) : Store :=
  if l = [] then st.erase k else st.put k l

/-- The key names of the store, in scan order. -/
def keys (st : Store) : List GoString := st.map Prod.fst

/-- The multiset of all elements held in the lists of the store (one list per
key name). -/
def elems (st : Store) : Multiset GoString :=
  ∑ k in st.keys.toFinset, (↑(st.get k) : Multiset GoString)

end Store

/-- Redis `LPUSH key value`: insert at the head. -/
def LPush (key value : GoString) (st : Store) : Store :=
  st.set key (value :: st.get key)

/-- Redis `RPOPLPUSH src dst`: atomically move the tail of `src` to the head of
`dst`. The reply is the element, or `redis.Nil` when `src` is empty. -/
def RPopLPush (src dst : GoString) (st : Store) : Store × GoString × Option GoError :=
  match (st.get src).getLast? with
  | none => (st, [], some GoError.GoRedisNil)
  | some v =>
    let st1 := st.set src (st.get src).dropLast
    (st1.set dst (v :: st1.get dst), v, none)

/-- Redis `BRPOPLPUSH src dst timeout`: as `RPOPLPUSH` when `src` holds an
element; when `src` stays empty for the whole wait the reply is `redis.Nil`. -/
def BRPopLPush (src dst : GoString) (st : Store) : Store × GoString × Option GoError :=
  RPopLPush src dst st

/-- Remove the first `n` occurrences of `v`, scanning from the head. -/
def removeN (v : GoString) : Nat → List GoString → List GoString
  | 0, l => l
  | _ + 1, [] => []
  | n + 1, x :: l => if x = v then removeN v n l else x :: removeN v (n + 1) l

/-- The list after Redis `LREM key count value`: `count > 0` removes up to
`count` occurrences from the head, `count < 0` up to `-count` from the tail,
`count = 0` all of them. -/
def lremList (count : Int) (v : GoString) (l : List GoString) : List GoString :=
  if 0 < count then removeN v count.natAbs l
  else if count < 0 then (removeN v count.natAbs l.reverse).reverse
  else l.filter (fun x => decide (x ≠ v))

/-- Redis `LREM key count value`; the reply is the number of removed elements. -/
def LRem (key : GoString) (count : Int) (value : GoString) (st : Store) :
    Store × Nat × Option GoError :=
  let l := st.get key
  let l1 := lremList count value l
  (st.set key l1, l.length - l1.length, none)

/-- Redis `LLEN key`. -/
def LLen (key : GoString) (st : Store) : Nat := (st.get key).length

/-- Members of a glob class `[...]` against the byte `c`: whether one matches and
the pattern left after the closing bracket. -/
def classMatch (c : UInt8) : GoString → Bool × GoString
  | [] => (false, [])
  | 93 :: rest => (false, rest)
  | [92] => (false, [])
  | 92 :: x :: rest => let r := classMatch c rest; (r.1 || x == c, r.2)
  | [a] => (a == c, [])
  | [a, b] => let r := classMatch c [b]; (r.1 || a == c, r.2)
  | a :: 45 :: b :: rest =>
    let r := classMatch c rest
    (r.1 || ((a ≤ c && c ≤ b) || (b ≤ c && c ≤ a)), r.2)
  | a :: b :: rest => let r := classMatch c (b :: rest); (r.1 || a == c, r.2)

/-- Redis glob matching with `*`, `?`, `[...]` classes and backslash escapes;
the first argument bounds the recursion. -/
def globAux : Nat → GoString → GoString → Bool
  | 0, _, _ => false
  | _ + 1, [], s => s.isEmpty
  | n + 1, 42 :: p, s =>
    globAux n p s ||
      (match s with
       | [] => false
       | _ :: t => globAux n (42 :: p) t)
  | _ + 1, _ :: _, [] => false
  | n + 1, 63 :: p, _ :: t => globAux n p t
  | n + 1, 91 :: p, c :: t =>
    let neg := p.head? == some 94
    let r := classMatch c (if neg then p.tail else p)
    (r.1 != neg) && globAux n r.2 t
  | n + 1, 92 :: x :: p, c :: t => x == c && globAux n p t
  | n + 1, x :: p, c :: t => x == c && globAux n p t

/-- Whether key `s` matches the glob `pattern`. -/
def globMatch (pattern s : GoString) : Bool :=
  globAux (pattern.length + s.length + 1) pattern s

/-- Redis `SCAN cursor MATCH pattern COUNT count`: one page of the key space.
The cursor is the offset of the page and `count` keys are examined per call; the
reply is the keys of the page that match and the cursor of the next page, `0`
once the key space is exhausted. A scan that starts at cursor `0` starts over. -/
def Scan (cursor : Nat) (pattern : GoString) (count : Nat) (st : Store) :
    List GoString × Nat × Option GoError :=
  (((st.drop cursor).take count).map Prod.fst |>.filter (globMatch pattern),
   if cursor + count < st.length then cursor + count else 0,
   none)

/-! ## The reliable queue (`redis_list_queue.go`, `redis_queue.go`) -/

/-- The body of `for _, key := range keys` in `ReturnElements`: a key whose last
`":@"`-separated field is not an `int64` is skipped; for every other key the
clock is read (`time.Now().Unix()`, the `t`-th reading of the call being
`clock t`), a key younger than a positive `interval` is skipped, and from every
other key one element is moved to the queue key with `RPopLPush`, whose error is
ignored. The result is the store and the number of clock readings so far. -/
def returnKeys (qkey : GoString) (interval : Int) (clock : Nat → Int) :
    List GoString → Nat → Store → Store × Nat
  | [], t, st => (st, t)
  | key :: keys, t, st =>
    let splits := Split key TimestampSeparator
    match ParseInt (splits.getLastD []) with
    | none => returnKeys qkey interval clock keys t st
    | some timestamp =>
      if wrapInt64 (clock t - timestamp) < interval ∧ interval > 0 then
        returnKeys qkey interval clock keys (t + 1) st
      else
        returnKeys qkey interval clock keys (t + 1) (RPopLPush key qkey st).1

/-- The `for` loop of `ReturnElements`, run for at most the given number of
iterations, from the `t`-th clock reading on. The second component is `some err`
when the function has returned `err`, and `none` when the loop is still running
after that many iterations; the first component is the store at that point. -/
def returnLoop (qkey : GoString) (interval : Int) (clock : Nat → Int) :
    Nat → Nat → Store → Store × Option (Option GoError)
  | 0, _, st => (st, none)
  | n + 1, t, st =>
    match Scan 0 (qkey ++ TimestampSeparator ++ [42]) 100 st with
    | (_, _, some err) => (st, some (some err))
    | (keys, cursor, none) =>
      if keys.length = 0 then (st, some none)
      else
        let r := returnKeys qkey interval clock keys t st
        if cursor = 0 then (r.1, some none) else returnLoop qkey interval clock n r.2 r.1

/-- The Go struct of `redis_list_queue.go`; the client is the `Store` argument of
the methods. -/
structure RedisListQueue where
  privateKey : GoString
  key : GoString
  deriving DecidableEq

/-- The `NewRedisListQueue` constructor, at Unix time `now`. -/
def NewRedisListQueue (key : GoString) (now : Int) : RedisListQueue :=
  { privateKey := key ++ TimestampSeparator ++ formatInt now, key := key }

namespace RedisListQueue

/-- The method `ReturnElements(interval)`, run for at most `fuel` iterations of
its loop; `clock t` is the `t`-th reading of `time.Now().Unix()` during the call. -/
def ReturnElements (q : RedisListQueue) (interval : Int) (clock : Nat → Int) (fuel : Nat)
    (st : Store) : Store × Option (Option GoError) :=
  returnLoop q.key interval clock fuel 0 st

/-- The method `Init`. -/
def Init (q : RedisListQueue) (clock : Nat → Int) (fuel : Nat) (st : Store) :
    Store × Option (Option GoError) :=
  q.ReturnElements 0 clock fuel st

/-- The method `Push`. -/
def Push (q : RedisListQueue) (data : GoString) (st : Store) : Store × Option GoError :=
  (LPush q.key data st, none)

/-- The method `Pop`: the store's empty reply becomes `(nil, QueueNilErr)`. The
context only bounds the wait (one second by default), which is the wait of
`BRPopLPush`; a `DoFuncHandler` carried by the context runs before the store call
and is not part of the store's state. -/
def Pop (q : RedisListQueue) (st : Store) : Store × Option GoString × Option GoError :=
  match BRPopLPush q.key q.privateKey st with
  | (st1, raw, err) =>
    if err = some GoError.GoRedisNil then (st1, none, some GoError.QueueNilErr)
    else (st1, some raw, err)

/-- The method `Remove`. -/
def Remove (q : RedisListQueue) (data : GoString) (st : Store) : Store × Option GoError :=
  match LRem q.privateKey (-1) data st with
  | (st1, _, err) => (st1, err)

/-- The method `Size`. -/
def Size (q : RedisListQueue) (st : Store) : Nat := LLen q.key st

end RedisListQueue

/-- The Go struct of `redis_queue.go`. -/
structure RedisQueue where
  privateKey : GoString
  key : GoString
  deriving DecidableEq

/-- The `NewRedisQueue` constructor, at Unix time `now`. -/
def NewRedisQueue (key : GoString) (now : Int) : RedisQueue :=
  { privateKey := key ++ TimestampSeparator ++ formatInt now, key := key }

namespace RedisQueue

/-- The method `ReturnElements(interval)` of `redis_queue.go`. -/
def ReturnElements (q : RedisQueue) (interval : Int) (clock : Nat → Int) (fuel : Nat)
    (st : Store) : Store × Option (Option GoError) :=
  returnLoop q.key interval clock fuel 0 st

/-- The method `Push` of `redis_queue.go`. -/
def Push (q : RedisQueue) (data : GoString) (st : Store) : Store × Option GoError :=
  (LPush q.key data st, none)

/-- The method `Pop` of `redis_queue.go`: the reply of `BRPopLPush` is returned
as it is. -/
def Pop (q : RedisQueue) (st : Store) : Store × Option GoString × Option GoError :=
  match BRPopLPush q.key q.privateKey st with
  | (st1, raw, err) => (st1, some raw, err)

/-- The method `Remove` of `redis_queue.go`. -/
def Remove (q : RedisQueue) (data : GoString) (st : Store) : Store × Option GoError :=
  match LRem q.privateKey (-1) data st with
  | (st1, _, err) => (st1, err)

end RedisQueue

/-- One queue operation of a worker, taken as one atomic step on the store. A
sweep carries its clock readings and the number of loop iterations it has run. -/
inductive QueueOp where
  | push (q : RedisListQueue) (data : GoString)
  | pop (q : RedisListQueue)
  | returnElements (q : RedisListQueue) (interval : Int) (clock : Nat → Int) (iterations : Nat)

/-- The queue of the worker that issues the operation. -/
def QueueOp.queue : QueueOp → RedisListQueue
  | .push q _ => q
  | .pop q => q
  | .returnElements q _ _ _ => q

/-- The store after one queue operation. -/
def QueueOp.apply : QueueOp → Store → Store
  | .push q data, st => (q.Push data st).1
  | .pop q, st => (q.Pop st).1
  | .returnElements q interval clock n, st => (q.ReturnElements interval clock n st).1

/-- The store after a sequence of queue operations. -/
def runOps : List QueueOp → Store → Store
  | [], st => st
  | op :: ops, st => runOps ops (op.apply st)

/-- The elements pushed by a sequence of operations. -/
def pushed : List QueueOp → Multiset GoString
  | [] => 0
  | .push _ data :: ops => data ::ₘ pushed ops
  | _ :: ops => pushed ops

/-- Pop `n` times in a row. -/
def popN (q : RedisListQueue) : Nat → Store → Store
  | 0, st => st
  | n + 1, st => popN q n (q.Pop st).1

/-- Call `Remove` on each value of a list, in order. -/
def removeEach (q : RedisListQueue) : List GoString → Store → Store
  | [], st => st
  | x :: xs, st => removeEach q xs (q.Remove x st).1

/-- Whether `k` names a list of the queue `key`: the shared list, the private list
of one of the given workers, or a key that the sweep of the queue takes for a
private list (one that matches `key + ":@" + "*"`). -/
def ownList (key : GoString) (privateKeys : List GoString) (k : GoString) : Bool :=
  decide (k = key) || decide (k ∈ privateKeys) ||
    globMatch (key ++ TimestampSeparator ++ [42]) k

/-- The multiset of the elements held in the lists whose key satisfies `p`, each
occurrence counted in the list that holds it. -/
def Store.held (st : Store) (p : GoString → Bool) : Multiset GoString :=
  ∑ k in st.keys.toFinset.filter (fun k => p k = true), (↑(st.get k) : Multiset GoString)

/-! ## The dispatcher (`redis_queue_assistant.go`) -/

/-- A value handed to Go `panic`: an `error`, or any other value with its `%v`
rendering. -/
inductive PanicValue where
  | error (e : GoError)
  | other (text : String)
  deriving DecidableEq

/-- How a call into user code that returns `error` ends. -/
inductive Call where
  | ret (err : Option GoError)
  | panic (v : PanicValue)
  deriving DecidableEq

/-- The conversion of a recovered value in both deferred functions of `Done`:
an `error` is kept, anything else becomes `fmt.Errorf("%v", e)`. -/
def recoverError : PanicValue → GoError
  | .error e => e
  | .other text => GoError.Errorf text

/-- A `Dataer` as a producer hands it to `Push`: its name and the result of
`Marshal()`. -/
structure Dataer where
  Name : GoString
  Marshal : GoString × Option GoError

/-- An `Assistanter`: the name of `NewData()`, and what `NewData().Unmarshal(raw)`
and `Done(ctx, data)` do for the payload `raw`. -/
structure Assistanter where
  Name : GoString
  Unmarshal : GoString → Call
  Done : GoString → Call

/-- A buffered Go channel: capacity and the values not yet received. -/
structure Chan (α : Type) where
  cap : Nat
  buf : List α

/-- The statement `c <- a`: `none` when the buffer is full and the sender has to
wait for a receiver. -/
def Chan.send {α : Type} (c : Chan α) (a : α) : Option (Chan α) :=
  if c.buf.length < c.cap then some { c with buf := c.buf ++ [a] } else none

/-- The expression `<-c`: `none` when the buffer is empty and the receiver has to
wait. -/
def Chan.recv {α : Type} (c : Chan α) : Option (α × Chan α) :=
  match c.buf with
  | [] => none
  | a :: rest => some (a, { c with buf := rest })

/-- The Go struct `RedisQueueAssistant`; the `Queuer` is a `RedisListQueue`, the
`sync.Map` an association list, a nil `err` channel is `none`. -/
structure RedisQueueAssistant where
  queue : RedisListQueue
  maxConcurrency : Chan Unit
  assistants : List (GoString × Assistanter)
  err : Option (Chan (Option GoError))

/-- The constructor `NewRedisQueueAssistant`. -/
def NewRedisQueueAssistant (queue : RedisListQueue) (maxConcurrency : Nat) : RedisQueueAssistant :=
  { queue := queue, maxConcurrency := { cap := maxConcurrency, buf := [] }, assistants := [],
    err := none }

/-- The string `fmt.Sprintf(signQueueDataFormat, name, raw)`. -/
def signQueueDataFormat (name raw : GoString) : GoString := name ++ signQueueData ++ raw

namespace RedisQueueAssistant

/-- The method `RegisterAssistanter`; `none` is a nil assistant. -/
def RegisterAssistanter (q : RedisQueueAssistant) (assistant : Option Assistanter) :
    RedisQueueAssistant :=
  match assistant with
  | none => q
  | some a =>
    { q with assistants := (a.Name, a) :: q.assistants.filter (fun e => decide (e.1 ≠ a.Name)) }

/-- The call `q.assistants.Load(kind)`. -/
def Load (q : RedisQueueAssistant) (kind : GoString) : Option Assistanter :=
  (q.assistants.find? (fun e => decide (e.1 = kind))).map Prod.snd

/-- The method `Push`. -/
def Push (q : RedisQueueAssistant) (data : Dataer) (st : Store) : Store × Option GoError :=
  match data.Marshal with
  | (_, some err) => (st, some err)
  | (raw, none) => q.queue.Push (signQueueDataFormat data.Name raw) st

/-- The part of `Pop` after the type assertion: split on `signQueueData` and
require exactly two parts. -/
def splitData (str : GoString) : GoString × GoString × Option GoError :=
  match Split str signQueueData with
  | [kind, raw] => (kind, raw, none)
  | _ => ([], [], some (GoError.New "split mark error"))

/-- The method `Pop`. -/
def Pop (q : RedisQueueAssistant) (st : Store) : Store × GoString × GoString × Option GoError :=
  match q.queue.Pop st with
  | (st1, _, some err) => (st1, [], [], some err)
  | (st1, none, none) => (st1, [], [], some (GoError.New "data is not string"))
  | (st1, some str, none) => (st1, splitData str)

/-- The method `Error`: the channel is made, with capacity 32, on the first call. -/
def Error (q : RedisQueueAssistant) : RedisQueueAssistant :=
  match q.err with
  | none => { q with err := some { cap := 32, buf := [] } }
  | some _ => q

end RedisQueueAssistant

/-- Where the `for` loop of `Done` stands. -/
inductive LoopPC where
  /-- At the `select` at the top of the loop. -/
  | top
  /-- In `done`, after a successful `Pop`, before `q.maxConcurrency <- struct{}{}`. -/
  | acquire (kind raw : GoString)
  /-- In `done`, after the `go` statement, before `return`. -/
  | ret
  /-- Back in the loop with the result of `done`, before `q.err <- err`. -/
  | send (e : Option GoError)
  /-- The method `Done` has returned. -/
  | stopped
  deriving DecidableEq

/-- Where a job goroutine stands. -/
inductive JobPC where
  /-- Before the body of the goroutine. -/
  | start (kind raw : GoString)
  /-- In the deferred function after `recover()`, with the recovered error. -/
  | deferred (recovered : Option GoError)
  /-- Before `<-q.maxConcurrency`. -/
  | release
  deriving DecidableEq

/-- A job goroutine and the invocation of `done` whose variable `err` it
captured. -/
structure Job where
  cycle : Nat
  pc : JobPC
  deriving DecidableEq

/-- The dispatcher with its environment. `errVar` is the named result `err` of
the invocation of `done` numbered `cycle`; `dispatched` records the jobs handed
to a registered assistant. -/
structure System where
  q : RedisQueueAssistant
  store : Store
  cancelled : Bool
  loop : LoopPC
  cycle : Nat
  errVar : Option GoError
  jobs : List Job
  dispatched : List (GoString × GoString)

/-- What the body of the job goroutine does: the last value it assigns to `err`
(if it assigns one), the panic it raises (if any), and whether an assistant was
found for the kind. -/
structure BodyResult where
  assigned : Option (Option GoError)
  panicked : Option PanicValue
  found : Bool
  deriving DecidableEq

/-- The body of the job goroutine. -/
def jobBody (q : RedisQueueAssistant) (kind raw : GoString) : BodyResult :=
  match q.Load kind with
  | none => { assigned := none, panicked := none, found := false }
  | some a =>
    match a.Unmarshal raw with
    | .panic v => { assigned := none, panicked := some v, found := true }
    | .ret (some e) => { assigned := some (some e), panicked := none, found := true }
    | .ret none =>
      match a.Done raw with
      | .panic v => { assigned := some none, panicked := some v, found := true }
      | .ret e => { assigned := some e, panicked := none, found := true }

/-- An assignment to the captured `err` by the goroutine of invocation `cycle`:
the loop sees it only while that invocation of `done` has not returned. -/
def System.assign (s : System) (cycle : Nat) (v : Option (Option GoError)) : System :=
  match v with
  | none => s
  | some e => if s.cycle = cycle ∧ s.loop = LoopPC.ret then { s with errVar := e } else s

/-- One atomic step of the loop of `Done`; `none` when the loop is waiting (for a
token, or for room in the error channel) or has stopped. -/
def loopStep (s : System) : Option System :=
  match s.loop with
  | .top =>
    if s.cancelled then some { s with loop := .stopped }
    else
      match s.q.Pop s.store with
      | (st1, _, _, some err) =>
        some { s with store := st1, cycle := s.cycle + 1, errVar := some err,
                      loop := .send (some err) }
      | (st1, kind, raw, none) =>
        some { s with store := st1, cycle := s.cycle + 1, errVar := none,
                      loop := .acquire kind raw }
  | .acquire kind raw =>
    match s.q.maxConcurrency.send () with
    | none => none
    | some ch =>
      some { s with q := { s.q with maxConcurrency := ch },
                    jobs := s.jobs ++ [{ cycle := s.cycle, pc := .start kind raw }],
                    loop := .ret }
  | .ret => some { s with loop := .send s.errVar }
  | .send e =>
    match s.q.err with
    | none => some { s with loop := .top }
    | some ch =>
      match ch.send e with
      | none => none
      | some ch1 => some { s with q := { s.q with err := some ch1 }, loop := .top }
  | .stopped => none

/-- One atomic step of the `i`-th job goroutine; `none` when there is no such
goroutine or it is waiting for room in the error channel. -/
def jobStep (i : Nat) (s : System) : Option System :=
  match s.jobs[i]? with
  | none => none
  | some j =>
    match j.pc with
    | .start kind raw =>
      let r := jobBody s.q kind raw
      let log := if r.found then s.dispatched ++ [(kind, raw)] else s.dispatched
      match r.panicked with
      | some v =>
        some (System.assign
          { s with jobs := s.jobs.set i { j with pc := .deferred (some (recoverError v)) },
                   dispatched := log }
          j.cycle (some (some (recoverError v))))
      | none =>
        some (System.assign
          { s with jobs := s.jobs.set i { j with pc := .deferred none }, dispatched := log }
          j.cycle r.assigned)
    | .deferred none => some { s with jobs := s.jobs.set i { j with pc := .release } }
    | .deferred (some e) =>
      match s.q.err with
      | none => some { s with jobs := s.jobs.set i { j with pc := .release } }
      | some ch =>
        match ch.send (some e) with
        | none => none
        | some ch1 =>
          some { s with q := { s.q with err := some ch1 },
                        jobs := s.jobs.set i { j with pc := .release } }
    | .release =>
      match s.q.maxConcurrency.recv with
      | none => none
      | some (_, ch) =>
        some { s with q := { s.q with maxConcurrency := ch }, jobs := s.jobs.eraseIdx i }

/-- The atomic steps of the system: of the loop, of a job goroutine, and of the
environment (a call of `Error()`, a receive on the error channel, cancellation
of the context, a producer's `Push`). -/
inductive Action where
  | loop
  | job (i : Nat)
  | callError
  | recv
  | cancel
  | push (d : Dataer)

/-- The system after one action; `none` when the action cannot happen now. -/
def step (a : Action) (s : System) : Option System :=
  match a with
  | .loop => loopStep s
  | .job i => jobStep i s
  | .callError => some { s with q := s.q.Error }
  | .recv =>
    match s.q.err with
    | none => none
    | some ch =>
      match ch.recv with
      | none => none
      | some (_, ch1) => some { s with q := { s.q with err := some ch1 } }
  | .cancel => some { s with cancelled := true }
  | .push d => some { s with store := (s.q.Push d s.store).1 }

/-- The system after a schedule of actions. -/
def exec : List Action → System → Option System
  | [], s => some s
  | a :: rest, s => (step a s).bind (exec rest)

/-- The system at the moment `q.Done(ctx)` is entered. -/
def System.enter (q : RedisQueueAssistant) (store : Store) : System :=
  { q := q, store := store, cancelled := false, loop := .top, cycle := 0, errVar := none,
    jobs := [], dispatched := [] }

/-- A dispatcher made by `NewRedisQueueAssistant`, with its assistants registered,
that has just entered `Done`. -/
def System.init (queue : RedisListQueue) (maxConcurrency : Nat) (assistants : List Assistanter)
    (store : Store) : System :=
  System.enter
    (assistants.foldl (fun q a => q.RegisterAssistanter (some a))
      (NewRedisQueueAssistant queue maxConcurrency))
    store

/-- The values waiting in the error channel, `[]` when there is no channel. -/
def System.errors (s : System) : List (Option GoError) :=
  match s.q.err with
  | none => []
  | some ch => ch.buf

/-- The number of concurrency tokens held. -/
def System.tokens (s : System) : Nat := s.q.maxConcurrency.buf.length


/-- Whether the job goroutine still has a recovered panic to report: its body will
panic, or it stands in the deferred function with a recovered error. -/
def Job.sends (q : RedisQueueAssistant) (j : Job) : Bool :=
  match j.pc with
  | .start kind raw => (jobBody q kind raw).panicked.isSome
  | .deferred (some _) => true
  | _ => false

/-- The invariant of the dispatcher: the capacity of the token channel is `k`,
every live job goroutine holds one token, at most `k` tokens are held, the error
channel (when made) has capacity 32, and the loop has stopped only after
cancellation. -/
def Inv (k : Nat) (s : System) : Prop :=
  s.q.maxConcurrency.cap = k ∧ s.jobs.length = s.tokens ∧ s.tokens ≤ k ∧
    (∀ ch, s.q.err = some ch → ch.cap = 32) ∧ (s.loop = LoopPC.stopped → s.cancelled = true)

/-- The data of the two-job scenario after the loop has spawned the goroutine of
job A: the queue, the registry, `maxConcurrency`, the number of values unread in
the error channel at the start, the store after A was popped and after B was
popped, the two jobs, and the error value of A's recovered panic. -/
structure Scene where
  queue : RedisListQueue
  assistants : List (GoString × Assistanter)
  k : Nat
  unread : Nat
  storeA : Store
  storeB : Store
  nameA : GoString
  rawA : GoString
  nameB : GoString
  rawB : GoString
  rv : GoError

/-- Where the loop stands after `lp` of its steps since it spawned A's goroutine:
before `return` in A's cycle, before its send, at the top, before taking B's
token, after spawning B's goroutine. -/
def Scene.loopAt (sc : Scene) : Nat → LoopPC → Prop
  | 0, pc => pc = LoopPC.ret
  | 1, pc => ∃ e, pc = LoopPC.send e
  | 2, pc => pc = LoopPC.top
  | 3, pc => pc = LoopPC.acquire sc.nameB sc.rawB
  | _, pc => pc = LoopPC.ret

/-- The goroutine of job A after `jp` of its steps: before its body, in the
deferred function with the recovered error, before giving the token back, gone. -/
def Scene.jobA (sc : Scene) (cA : Nat) : Nat → List Job
  | 0 => [{ cycle := cA, pc := JobPC.start sc.nameA sc.rawA }]
  | 1 => [{ cycle := cA, pc := JobPC.deferred (some sc.rv) }]
  | 2 => [{ cycle := cA, pc := JobPC.release }]
  | _ => []

/-- The goroutine of job B, alive once the loop has spawned it in its fourth step. -/
def Scene.jobB (sc : Scene) (cB : Nat) (lp : Nat) : List Job :=
  if lp = 4 then [{ cycle := cB, pc := JobPC.start sc.nameB sc.rawB }] else []

/-- The states of the two-job scenario after `lp` steps of the loop and `jp` steps
of A's goroutine, in whatever order they were taken. -/
def Scene.Phase (sc : Scene) (lp jp : Nat) (s : System) : Prop :=
  s.q.queue = sc.queue ∧ s.q.assistants = sc.assistants ∧ s.q.maxConcurrency.cap = sc.k ∧
  s.cancelled = false ∧ s.tokens = s.jobs.length ∧
  (∃ buf, s.q.err = some { cap := 32, buf := buf } ∧
    buf.length = sc.unread + (if 2 ≤ lp then 1 else 0) + (if 2 ≤ jp then 1 else 0) ∧
    (2 ≤ jp → some sc.rv ∈ buf)) ∧
  sc.loopAt lp s.loop ∧
  s.store = (if lp ≤ 2 then sc.storeA else sc.storeB) ∧
  (∃ cA cB, s.jobs = sc.jobA cA jp ++ sc.jobB cB lp) ∧
  s.dispatched = (if 1 ≤ jp then [(sc.nameA, sc.rawA)] else [])

/-- What the scenario needs: a token, room for two values in the error channel,
job B at the tail of the shared list once A is popped, a panic in A's body, and a
registered assistant for B. -/
def Scene.Ok (sc : Scene) (v : PanicValue) : Prop :=
  1 ≤ sc.k ∧ sc.unread + 2 ≤ 32 ∧ sc.rv = recoverError v ∧
  sc.queue.Pop sc.storeA = (sc.storeB, some (signQueueDataFormat sc.nameB sc.rawB), none) ∧
  RedisQueueAssistant.splitData (signQueueDataFormat sc.nameB sc.rawB)
    = (sc.nameB, sc.rawB, none) ∧
  (∀ q : RedisQueueAssistant, q.assistants = sc.assistants →
    (jobBody q sc.nameA sc.rawA).panicked = some v) ∧
  (∀ q : RedisQueueAssistant, q.assistants = sc.assistants →
    (jobBody q sc.nameB sc.rawB).found = true)

/-- The actions of a schedule of the loop (`true`) and of the first job goroutine
(`false`). -/
def interleaving (sched : List Bool) : List Action :=
  sched.map (fun b => if b then Action.loop else Action.job 0)

/-- A dispatcher made by `NewRedisQueueAssistant`, with its assistants registered,
whose error channel was made by `Error()` and holds the values `unread`, at the
moment it enters `Done`. -/
def System.requested (queue : RedisListQueue) (maxConcurrency : Nat)
    (assistants : List Assistanter) (unread : List (Option GoError)) (store : Store) : System :=
  System.enter
    { (System.init queue maxConcurrency assistants store).q with
      err := some { cap := 32, buf := unread } }
    store

/-! ## Example inputs -/

/-- A key space of 101 lists that match `"q:@*"` and whose last field is not a
number: `"q:@w0"` to `"q:@w100"`, each holding one element. -/
def staleStore : Store :=
  (List.range 101).map (fun i => (ascii "q:@w" ++ formatInt i, [ascii "v"]))

/-- The store after `Push("a")`, `Push("b")`, `Pop()`, `Pop()` on an empty store by
the worker of queue `"q"` started at time 5. -/
def twoPopped : Store :=
  ((NewRedisListQueue (ascii "q") 5).Pop
    ((NewRedisListQueue (ascii "q") 5).Pop
      ((NewRedisListQueue (ascii "q") 5).Push (ascii "b")
        ((NewRedisListQueue (ascii "q") 5).Push (ascii "a") []).1).1).1).1

/-- The store after `Push("a")`, `Pop()` on an empty store by the same worker. -/
def onePopped : Store :=
  ((NewRedisListQueue (ascii "q") 5).Pop
    ((NewRedisListQueue (ascii "q") 5).Push (ascii "a") []).1).1

/-- An assistant for kind `"A"` whose `Done` panics with the string `"boom"`. -/
def panicA : Assistanter :=
  { Name := ascii "A", Unmarshal := fun _ => .ret none, Done := fun _ => .panic (.other "boom") }

/-- An assistant for kind `"B"` that succeeds. -/
def handleB : Assistanter :=
  { Name := ascii "B", Unmarshal := fun _ => .ret none, Done := fun _ => .ret none }

/-- An assistant for kind `"D"` whose `Done` returns an error. -/
def failDone : Assistanter :=
  { Name := ascii "D", Unmarshal := fun _ => .ret none,
    Done := fun _ => .ret (some (GoError.New "bad")) }

/-- An assistant for kind `"U"` whose data fails to unmarshal. -/
def failUnmarshal : Assistanter :=
  { Name := ascii "U", Unmarshal := fun _ => .ret (some (GoError.New "bad json")),
    Done := fun _ => .ret none }

/-- A shared list `"q"` holding job A and, pushed after it, job B. -/
def jobsAB : Store := [(ascii "q", [ascii "B#|y", ascii "A#|x"])]

/-- The schedule of the two-job scenario: `Error()` is called, the loop runs the
cycle of the first job, that job's goroutine runs to its end, the loop pops the
second job and spawns its goroutine, which starts. -/
def twoJobs : List Action :=
  [.callError, .loop, .loop, .loop, .loop, .job 0, .job 0, .job 0, .loop, .loop, .job 0]

/-- The schedule of one job: `Error()` is called, a producer pushes the job, the
loop runs its whole cycle, then the job goroutine runs to its end. -/
def oneJob (d : Dataer) : List Action :=
  [.callError, .push d, .loop, .loop, .loop, .loop, .job 0, .job 0, .job 0]

/-- Thirty-two cycles of the loop. -/
def polls32 : List Action := (List.replicate 32 [Action.loop, Action.loop]).flatten

/-- Thirty-one cycles of the loop. -/
def polls31 : List Action := (List.replicate 31 [Action.loop, Action.loop]).flatten


/-! ## Strings: splitting an envelope -/

theorem startsWith_sign_append_left (t : UInt8) (tag rest : GoString)
    (h : startsWith (t :: tag) signQueueData = false) :
    startsWith (t :: (tag ++ signQueueData ++ rest)) signQueueData = false := by
  cases tag with
  | nil =>
    simp [startsWith, signQueueData] at h ⊢
  | cons u tag =>
    simpa [startsWith, signQueueData] using h

theorem Index_sign_none_cons (t : UInt8) (tag : GoString)
    (h : Index (t :: tag) signQueueData = none) :
    startsWith (t :: tag) signQueueData = false ∧ Index tag signQueueData = none := by
  unfold Index at h
  by_cases hs : startsWith (t :: tag) signQueueData = true
  · simp [hs] at h
  · simp only [hs] at h
    simp at h
    exact ⟨by simpa using hs, h⟩

theorem Index_sign_append (tag rest : GoString) (h : Index tag signQueueData = none) :
    Index (tag ++ signQueueData ++ rest) signQueueData = some tag.length := by
  induction tag with
  | nil => simp [Index, startsWith, signQueueData]
  | cons t tag ih =>
    obtain ⟨h1, h2⟩ := Index_sign_none_cons t tag h
    have h3 := startsWith_sign_append_left t tag rest h1
    have h4 := ih h2
    simp only [List.cons_append, List.append_assoc] at h3 h4 ⊢
    unfold Index
    simp [h3, h4]

theorem genSplit_of_Index_none (n : Nat) (s sep : GoString) (h : Index s sep = none) :
    genSplit n s sep = [s] := by
  cases n <;> simp [genSplit, h]

theorem genSplit_ne_nil (n : Nat) (s sep : GoString) : genSplit n s sep ≠ [] := by
  cases n with
  | zero => simp [genSplit]
  | succ n =>
    unfold genSplit
    split <;> simp

theorem Split_signQueueDataFormat (tag payload : GoString)
    (htag : Index tag signQueueData = none) :
    Split (signQueueDataFormat tag payload) signQueueData
      = tag :: genSplit (tag.length + 1 + payload.length) payload signQueueData := by
  have hi := Index_sign_append tag payload htag
  have hlen : (signQueueDataFormat tag payload).length = (tag.length + 1 + payload.length) + 1 := by
    simp [signQueueDataFormat, signQueueData]; omega
  unfold Split
  rw [hlen, genSplit]
  simp only [signQueueDataFormat] at hi ⊢
  rw [hi]
  simp [signQueueData]

theorem splitData_roundtrip (tag payload : GoString)
    (htag : Contains tag signQueueData = false) (hp : Contains payload signQueueData = false) :
    RedisQueueAssistant.splitData (signQueueDataFormat tag payload) = (tag, payload, none) := by
  have h1 : Index tag signQueueData = none := by simpa [Contains] using htag
  have h2 : Index payload signQueueData = none := by simpa [Contains] using hp
  unfold RedisQueueAssistant.splitData
  rw [Split_signQueueDataFormat tag payload h1, genSplit_of_Index_none _ _ _ h2]

theorem splitData_payload_sign (tag payload : GoString)
    (htag : Contains tag signQueueData = false) (hp : Contains payload signQueueData = true) :
    RedisQueueAssistant.splitData (signQueueDataFormat tag payload)
      = ([], [], some (GoError.New "split mark error")) := by
  have h1 : Index tag signQueueData = none := by simpa [Contains] using htag
  obtain ⟨m, hm⟩ : ∃ m, Index payload signQueueData = some m := by
    simpa [Contains, Option.isSome_iff_exists] using hp
  unfold RedisQueueAssistant.splitData
  rw [Split_signQueueDataFormat tag payload h1]
  have hne := genSplit_ne_nil (tag.length + payload.length) (payload.drop (m + signQueueData.length))
    signQueueData
  have : genSplit (tag.length + 1 + payload.length) payload signQueueData
      = payload.take m :: genSplit (tag.length + payload.length)
          (payload.drop (m + signQueueData.length)) signQueueData := by
    have e : tag.length + 1 + payload.length = (tag.length + payload.length) + 1 := by omega
    rw [e, genSplit]
    simp [hm]
  rw [this]
  cases hg : genSplit (tag.length + payload.length) (payload.drop (m + signQueueData.length))
    signQueueData with
  | nil => exact absurd hg hne
  | cons a l => rfl

/-! ## The store: reading after writing -/

theorem Store.get_erase_self (st : Store) (k : GoString) : (st.erase k).get k = [] := by
  induction st with
  | nil => rfl
  | cons e st ih =>
    obtain ⟨k', l⟩ := e
    by_cases h : k' = k
    · simpa [Store.erase, h] using ih
    · simpa [Store.erase, Store.get, h] using ih

theorem Store.get_erase_ne (st : Store) (k k' : GoString) (h : k' ≠ k) :
    (st.erase k).get k' = st.get k' := by
  induction st with
  | nil => rfl
  | cons e st ih =>
    obtain ⟨k0, l⟩ := e
    by_cases h0 : k0 = k
    · have : k0 ≠ k' := fun e => h (e ▸ h0)
      simpa [Store.erase, Store.get, h0, this, h.symm] using ih
    · by_cases h1 : k0 = k'
      · subst h1
        simp [Store.erase, Store.get, h0]
      · simpa [Store.erase, Store.get, h0, h1] using ih

theorem Store.get_put_self (st : Store) (k : GoString) (l : List GoString) :
    (st.put k l).get k = l := by
  induction st with
  | nil => simp [Store.put, Store.get]
  | cons e st ih =>
    obtain ⟨k0, l0⟩ := e
    by_cases h0 : k0 = k
    · simp [Store.put, Store.get, h0]
    · simpa [Store.put, Store.get, h0] using ih

theorem Store.get_put_ne (st : Store) (k k' : GoString) (l : List GoString) (h : k' ≠ k) :
    (st.put k l).get k' = st.get k' := by
  induction st with
  | nil => simp [Store.put, Store.get, h.symm]
  | cons e st ih =>
    obtain ⟨k0, l0⟩ := e
    by_cases h0 : k0 = k
    · have : k0 ≠ k' := fun e => h (e ▸ h0)
      simp [Store.put, Store.get, h0, this, h.symm]
    · by_cases h1 : k0 = k'
      · subst h1
        simp [Store.put, Store.get, h0]
      · simpa [Store.put, Store.get, h0, h1] using ih

theorem Store.get_set_self (st : Store) (k : GoString) (l : List GoString) :
    (st.set k l).get k = l := by
  unfold Store.set
  split
  · next h => rw [Store.get_erase_self, h]
  · exact Store.get_put_self st k l

theorem Store.get_set_ne (st : Store) (k k' : GoString) (l : List GoString) (h : k' ≠ k) :
    (st.set k l).get k' = st.get k' := by
  unfold Store.set
  split
  · exact Store.get_erase_ne st k k' h
  · exact Store.get_put_ne st k k' l h

theorem Store.get_of_not_mem_keys (st : Store) (k : GoString) (h : k ∉ st.keys) :
    st.get k = [] := by
  induction st with
  | nil => rfl
  | cons e st ih =>
    obtain ⟨k0, l0⟩ := e
    simp only [Store.keys, List.map_cons, List.mem_cons, not_or] at h
    have h0 : k0 ≠ k := fun e => h.1 e.symm
    simpa [Store.get, h0] using ih h.2

theorem Store.keys_put (st : Store) (k k' : GoString) (l : List GoString)
    (h : k' ∈ (st.put k l).keys) : k' = k ∨ k' ∈ st.keys := by
  induction st with
  | nil => simpa [Store.put, Store.keys] using h
  | cons e st ih =>
    obtain ⟨k0, l0⟩ := e
    by_cases h0 : k0 = k
    · simp only [Store.put, h0, if_true, Store.keys, List.map_cons, List.mem_cons] at h ⊢
      rcases h with h | h
      · exact Or.inl h
      · exact Or.inr (Or.inr h)
    · simp only [Store.put, h0, if_false, Store.keys, List.map_cons, List.mem_cons] at h ⊢
      rcases h with h | h
      · exact Or.inr (Or.inl h)
      · rcases ih h with h | h
        · exact Or.inl h
        · exact Or.inr (Or.inr h)

theorem Store.keys_set (st : Store) (k k' : GoString) (l : List GoString)
    (h : k' ∈ (st.set k l).keys) : k' = k ∨ k' ∈ st.keys := by
  unfold Store.set at h
  split at h
  · right
    simp only [Store.erase, Store.keys, List.mem_map, List.mem_filter] at h ⊢
    obtain ⟨e, ⟨he, _⟩, hk⟩ := h
    exact ⟨e, he, hk⟩
  · exact Store.keys_put st k k' l h

/-! ## The store: the multiset of held elements -/

theorem Store.elems_eq_sum (st : Store) (S : Finset GoString) (h : st.keys.toFinset ⊆ S) :
    st.elems = ∑ k in S, (↑(st.get k) : Multiset GoString) := by
  unfold Store.elems
  apply Finset.sum_subset h
  intro x _ hx
  rw [Store.get_of_not_mem_keys st x (by simpa using hx)]
  rfl

theorem Store.elems_set (st : Store) (k : GoString) (l : List GoString) :
    (st.set k l).elems + (↑(st.get k) : Multiset GoString)
      = st.elems + (↑l : Multiset GoString) := by
  have hS1 : st.keys.toFinset ⊆ insert k st.keys.toFinset := Finset.subset_insert _ _
  have hS2 : (st.set k l).keys.toFinset ⊆ insert k st.keys.toFinset := by
    intro x hx
    rcases Store.keys_set st k x l (by simpa using hx) with h | h
    · simp [h]
    · simp [h]
  have hk : k ∈ insert k st.keys.toFinset := Finset.mem_insert_self _ _
  rw [Store.elems_eq_sum st _ hS1, Store.elems_eq_sum (st.set k l) _ hS2,
    ← Finset.add_sum_erase _ _ hk, ← Finset.add_sum_erase (insert k st.keys.toFinset) _ hk,
    Store.get_set_self]
  have hc : ∑ x in (insert k st.keys.toFinset).erase k, (↑((st.set k l).get x) : Multiset GoString)
      = ∑ x in (insert k st.keys.toFinset).erase k, (↑(st.get x) : Multiset GoString) := by
    apply Finset.sum_congr rfl
    intro x hx
    rw [Store.get_set_ne st k x l (Finset.ne_of_mem_erase hx)]
  rw [hc]
  abel

theorem elems_LPush (key value : GoString) (st : Store) :
    (LPush key value st).elems = value ::ₘ st.elems := by
  have h := Store.elems_set st key (value :: st.get key)
  unfold LPush
  rw [← Multiset.cons_coe, Multiset.add_cons] at h
  have h2 : (st.set key (value :: st.get key)).elems + ↑(st.get key)
      = (value ::ₘ st.elems) + ↑(st.get key) := by
    rw [h, Multiset.cons_add]
  exact add_right_cancel h2

theorem elems_RPopLPush (src dst : GoString) (st : Store) :
    (RPopLPush src dst st).1.elems = st.elems := by
  unfold RPopLPush
  cases hl : (st.get src).getLast? with
  | none => rfl
  | some v =>
    simp only
    have hsrc : st.get src = (st.get src).dropLast ++ [v] := by
      have := List.dropLast_append_getLast? v hl
      exact this.symm
    have h1 := Store.elems_set st src (st.get src).dropLast
    have h2 := Store.elems_set (st.set src (st.get src).dropLast) dst
      (v :: (st.set src (st.get src).dropLast).get dst)
    generalize st.set src (st.get src).dropLast = st1 at h1 h2 ⊢
    generalize st1.set dst (v :: st1.get dst) = st2 at h2 ⊢
    have e1 : (↑(st.get src) : Multiset GoString) = v ::ₘ ↑(st.get src).dropLast := by
      conv_lhs => rw [hsrc]
      rw [← Multiset.coe_add, add_comm]
      rfl
    rw [e1] at h1
    rw [← Multiset.cons_coe, Multiset.add_cons] at h2
    have h3 : st2.elems + ↑(st1.get dst) = (v ::ₘ st1.elems) + ↑(st1.get dst) := by
      rw [h2, Multiset.cons_add]
    have h4 : st2.elems = v ::ₘ st1.elems := add_right_cancel h3
    rw [Multiset.add_cons] at h1
    rw [h4]
    have h5 : (v ::ₘ st1.elems) + ↑(st.get src).dropLast = st.elems + ↑(st.get src).dropLast := by
      rw [Multiset.cons_add]; exact h1
    exact add_right_cancel h5

theorem elems_returnKeys (qkey : GoString) (interval : Int) (clock : Nat → Int)
    (keys : List GoString) (t : Nat) (st : Store) :
    (returnKeys qkey interval clock keys t st).1.elems = st.elems := by
  induction keys generalizing t st with
  | nil => rfl
  | cons key keys ih =>
    unfold returnKeys
    simp only
    split
    · exact ih t st
    · split
      · exact ih (t + 1) st
      · rw [ih, elems_RPopLPush]

theorem elems_returnLoop (qkey : GoString) (interval : Int) (clock : Nat → Int) (n t : Nat)
    (st : Store) : (returnLoop qkey interval clock n t st).1.elems = st.elems := by
  induction n generalizing t st with
  | zero => rfl
  | succ n ih =>
    unfold returnLoop
    split
    · rfl
    · split
      · rfl
      · simp only
        split
        · exact elems_returnKeys _ _ _ _ _ _
        · rw [ih, elems_returnKeys]

theorem elems_Pop (q : RedisListQueue) (st : Store) : (q.Pop st).1.elems = st.elems := by
  have h := elems_RPopLPush q.key q.privateKey st
  unfold RedisListQueue.Pop BRPopLPush
  generalize RPopLPush q.key q.privateKey st = r at h ⊢
  obtain ⟨st1, raw, err⟩ := r
  simp only at h ⊢
  split <;> exact h

theorem elems_apply (op : QueueOp) (st : Store) :
    (op.apply st).elems = st.elems + pushed [op] := by
  cases op with
  | push q data =>
    simp only [QueueOp.apply, RedisListQueue.Push, pushed, elems_LPush]
    rw [add_comm, Multiset.cons_zero, Multiset.singleton_add]
  | pop q => simp [QueueOp.apply, pushed, elems_Pop]
  | returnElements q interval clock n =>
    simp [QueueOp.apply, pushed, RedisListQueue.ReturnElements, elems_returnLoop]

theorem pushed_cons (op : QueueOp) (ops : List QueueOp) :
    pushed (op :: ops) = pushed [op] + pushed ops := by
  cases op <;> simp [pushed]

theorem elems_runOps (ops : List QueueOp) (st : Store) :
    (runOps ops st).elems = st.elems + pushed ops := by
  induction ops generalizing st with
  | nil => simp [runOps, pushed]
  | cons op ops ih =>
    rw [runOps, ih, elems_apply, add_assoc, ← pushed_cons]

/-! ## The list commands -/

theorem RPopLPush_empty (src dst : GoString) (st : Store) (h : st.get src = []) :
    RPopLPush src dst st = (st, [], some GoError.GoRedisNil) := by
  simp [RPopLPush, h]

theorem RPopLPush_tail (src dst : GoString) (st : Store) (l : List GoString) (v : GoString)
    (h : st.get src = l ++ [v]) :
    RPopLPush src dst st
      = ((st.set src l).set dst (v :: (st.set src l).get dst), v, none) := by
  simp [RPopLPush, h]

theorem get_RPopLPush_other (src dst k : GoString) (st : Store) (h1 : k ≠ src) (h2 : k ≠ dst) :
    (RPopLPush src dst st).1.get k = st.get k := by
  unfold RPopLPush
  cases (st.get src).getLast? with
  | none => rfl
  | some v =>
    simp only
    rw [Store.get_set_ne _ _ _ _ h2, Store.get_set_ne _ _ _ _ h1]

theorem NewRedisListQueue_privateKey_ne (key : GoString) (now : Int) :
    (NewRedisListQueue key now).privateKey ≠ (NewRedisListQueue key now).key := by
  intro h
  have := congrArg List.length h
  simp [NewRedisListQueue, TimestampSeparator] at this

theorem NewRedisQueue_privateKey_ne (key : GoString) (now : Int) :
    (NewRedisQueue key now).privateKey ≠ (NewRedisQueue key now).key := by
  intro h
  have := congrArg List.length h
  simp [NewRedisQueue, TimestampSeparator] at this

theorem RedisListQueue.Pop_empty (q : RedisListQueue) (st : Store) (h : st.get q.key = []) :
    q.Pop st = (st, none, some GoError.QueueNilErr) := by
  simp [RedisListQueue.Pop, BRPopLPush, RPopLPush_empty _ _ _ h]

theorem RedisListQueue.Pop_tail (q : RedisListQueue) (st : Store) (l : List GoString)
    (v : GoString) (h : st.get q.key = l ++ [v]) :
    q.Pop st = ((st.set q.key l).set q.privateKey (v :: (st.set q.key l).get q.privateKey),
      some v, none) := by
  simp [RedisListQueue.Pop, BRPopLPush, RPopLPush_tail _ _ _ _ _ h]

theorem RedisListQueue.Pop_tail_lists (q : RedisListQueue) (hq : q.privateKey ≠ q.key) (st : Store)
    (l : List GoString) (v : GoString) (h : st.get q.key = l ++ [v]) :
    (q.Pop st).2 = (some v, none) ∧ (q.Pop st).1.get q.key = l ∧
      (q.Pop st).1.get q.privateKey = v :: st.get q.privateKey ∧
      ∀ k, k ≠ q.key → k ≠ q.privateKey → (q.Pop st).1.get k = st.get k := by
  rw [RedisListQueue.Pop_tail q st l v h]
  refine ⟨rfl, ?_, ?_, ?_⟩
  · simp only
    rw [Store.get_set_ne _ _ _ _ (Ne.symm hq), Store.get_set_self]
  · simp only
    rw [Store.get_set_self, Store.get_set_ne _ _ _ _ hq]
  · intro k h1 h2
    simp only
    rw [Store.get_set_ne _ _ _ _ h2, Store.get_set_ne _ _ _ _ h1]

theorem RedisQueue.Pop_nil_reply (q : RedisQueue) (st : Store) (h : st.get q.key = []) :
    q.Pop st = (st, some [], some GoError.GoRedisNil) := by
  simp [RedisQueue.Pop, BRPopLPush, RPopLPush_empty _ _ _ h]

theorem RedisQueue.Pop_tail_reply (q : RedisQueue) (st : Store) (l : List GoString)
    (v : GoString) (h : st.get q.key = l ++ [v]) :
    q.Pop st = ((st.set q.key l).set q.privateKey (v :: (st.set q.key l).get q.privateKey),
      some v, none) := by
  simp [RedisQueue.Pop, BRPopLPush, RPopLPush_tail _ _ _ _ _ h]

/-! ## Removing an acknowledged element -/

theorem removeN_one_of_not_mem (x : GoString) (l : List GoString) (h : x ∉ l) :
    removeN x 1 l = l := by
  induction l with
  | nil => rfl
  | cons a l ih =>
    simp only [List.mem_cons, not_or] at h
    have ha : a ≠ x := fun e => h.1 e.symm
    simp [removeN, ha, ih h.2]

theorem removeN_one_of_mem (x : GoString) (l : List GoString) (h : x ∈ l) :
    ∃ l1 l2, l = l1 ++ x :: l2 ∧ x ∉ l1 ∧ removeN x 1 l = l1 ++ l2 := by
  induction l with
  | nil => simp at h
  | cons a l ih =>
    by_cases ha : a = x
    · exact ⟨[], l, by simp [ha], by simp, by simp [removeN, ha]⟩
    · have hx : x ∈ l := by
        rcases List.mem_cons.mp h with h | h
        · exact absurd h.symm ha
        · exact h
      obtain ⟨l1, l2, e, hn, hr⟩ := ih hx
      refine ⟨a :: l1, l2, by simp [e], ?_, ?_⟩
      · simp only [List.mem_cons, not_or]
        exact ⟨fun e => ha e.symm, hn⟩
      · simp [removeN, ha, hr]

theorem lremList_last_of_mem (x : GoString) (l : List GoString) (h : x ∈ l) :
    ∃ l1 l2, l = l1 ++ x :: l2 ∧ x ∉ l2 ∧ lremList (-1) x l = l1 ++ l2 := by
  obtain ⟨r1, r2, e, hn, hr⟩ := removeN_one_of_mem x l.reverse (by simpa using h)
  refine ⟨r2.reverse, r1.reverse, ?_, by simpa using hn, ?_⟩
  · have := congrArg List.reverse e
    simpa using this
  · simp [lremList, hr]

theorem lremList_last_of_not_mem (x : GoString) (l : List GoString) (h : x ∉ l) :
    lremList (-1) x l = l := by
  simp [lremList, removeN_one_of_not_mem x l.reverse (by simpa using h)]

theorem RedisListQueue.Remove_eq (q : RedisListQueue) (x : GoString) (st : Store) :
    q.Remove x st = (st.set q.privateKey (lremList (-1) x (st.get q.privateKey)), none) := by
  simp [RedisListQueue.Remove, LRem]

theorem removeEach_other (q : RedisListQueue) (xs : List GoString) (st : Store) (k : GoString)
    (hk : k ≠ q.privateKey) : (removeEach q xs st).get k = st.get k := by
  induction xs generalizing st with
  | nil => rfl
  | cons x xs ih =>
    rw [removeEach, ih, RedisListQueue.Remove_eq]
    exact Store.get_set_ne _ _ _ _ hk

theorem removeEach_perm (q : RedisListQueue) (xs : List GoString) (st : Store)
    (h : (st.get q.privateKey).Perm xs) : (removeEach q xs st).get q.privateKey = [] := by
  induction xs generalizing st with
  | nil => simpa [removeEach] using h
  | cons x xs ih =>
    rw [removeEach]
    apply ih
    rw [RedisListQueue.Remove_eq]
    simp only
    rw [Store.get_set_self]
    have hx : x ∈ st.get q.privateKey := h.symm.subset (List.mem_cons_self x xs)
    obtain ⟨l1, l2, e, _, hr⟩ := lremList_last_of_mem x _ hx
    rw [hr]
    rw [e] at h
    exact (List.perm_middle.symm.trans h).cons_inv

theorem popN_all (q : RedisListQueue) (hq : q.privateKey ≠ q.key) (xs : List GoString)
    (st : Store) (h : st.get q.key = xs) :
    (popN q xs.length st).get q.key = [] ∧
      (popN q xs.length st).get q.privateKey = xs ++ st.get q.privateKey := by
  induction xs using List.reverseRecOn generalizing st with
  | nil => simp [popN, h]
  | append_singleton l v ih =>
    have hp := RedisListQueue.Pop_tail_lists q hq st l v h
    have e : (l ++ [v]).length = l.length + 1 := by simp
    rw [e, popN]
    obtain ⟨h1, h2⟩ := ih (q.Pop st).1 hp.2.1
    refine ⟨h1, ?_⟩
    rw [h2, hp.2.2.1]
    simp

/-! ## The sweep: which lists it touches -/

theorem get_returnKeys_other (qkey : GoString) (interval : Int) (clock : Nat → Int)
    (keys : List GoString) (t : Nat) (st : Store) (k : GoString) (h1 : k ≠ qkey)
    (h2 : k ∉ keys) : (returnKeys qkey interval clock keys t st).1.get k = st.get k := by
  induction keys generalizing t st with
  | nil => rfl
  | cons key keys ih =>
    simp only [List.mem_cons, not_or] at h2
    unfold returnKeys
    simp only
    split
    · exact ih t st h2.2
    · split
      · exact ih (t + 1) st h2.2
      · rw [ih _ _ h2.2, get_RPopLPush_other _ _ _ _ h2.1 h1]

theorem mem_Scan (cursor count : Nat) (pattern k : GoString) (st : Store)
    (h : k ∈ (Scan cursor pattern count st).1) : globMatch pattern k = true := by
  simp only [Scan, List.mem_filter] at h
  exact h.2

theorem get_returnLoop_other (qkey : GoString) (interval : Int) (clock : Nat → Int)
    (n t : Nat) (st : Store) (k : GoString) (h1 : k ≠ qkey)
    (h2 : globMatch (qkey ++ TimestampSeparator ++ [42]) k = false) :
    (returnLoop qkey interval clock n t st).1.get k = st.get k := by
  induction n generalizing t st with
  | zero => rfl
  | succ n ih =>
    have hk : k ∉ (Scan 0 (qkey ++ TimestampSeparator ++ [42]) 100 st).1 := by
      intro hm
      rw [mem_Scan _ _ _ _ _ hm] at h2
      exact Bool.noConfusion h2
    unfold returnLoop
    split
    · rfl
    · next keys cursor heq =>
      rw [heq] at hk
      split
      · rfl
      · simp only
        split
        · exact get_returnKeys_other _ _ _ _ _ _ _ h1 hk
        · rw [ih, get_returnKeys_other _ _ _ _ _ _ _ h1 hk]

theorem ownList_false (key : GoString) (privs : List GoString) (k : GoString)
    (h : ownList key privs k = false) :
    k ≠ key ∧ k ∉ privs ∧ globMatch (key ++ TimestampSeparator ++ [42]) k = false := by
  simpa [ownList, not_or, and_assoc] using h

theorem get_apply_other (op : QueueOp) (st : Store) (key : GoString) (privs : List GoString)
    (k : GoString) (hkey : op.queue.key = key) (hpriv : op.queue.privateKey ∈ privs)
    (h : ownList key privs k = false) : (op.apply st).get k = st.get k := by
  obtain ⟨h1, h2, h3⟩ := ownList_false key privs k h
  have hp : k ≠ op.queue.privateKey := fun e => h2 (e ▸ hpriv)
  cases op with
  | push q data =>
    simp only [QueueOp.queue] at hkey
    simp only [QueueOp.apply, RedisListQueue.Push, LPush]
    exact Store.get_set_ne _ _ _ _ (by rw [hkey]; exact h1)
  | pop q =>
    simp only [QueueOp.queue] at hkey hp
    have := get_RPopLPush_other q.key q.privateKey k st (by rw [hkey]; exact h1) hp
    simp only [QueueOp.apply, RedisListQueue.Pop, BRPopLPush]
    generalize RPopLPush q.key q.privateKey st = r at this ⊢
    obtain ⟨st1, raw, err⟩ := r
    simp only at this ⊢
    split <;> exact this
  | returnElements q interval clock n =>
    simp only [QueueOp.queue] at hkey
    exact get_returnLoop_other _ _ _ _ _ _ _ (by rw [hkey]; exact h1) (by rw [hkey]; exact h3)

theorem get_runOps_other (ops : List QueueOp) (st : Store) (key : GoString)
    (privs : List GoString) (k : GoString) (hkey : ∀ op ∈ ops, op.queue.key = key)
    (hpriv : ∀ op ∈ ops, op.queue.privateKey ∈ privs) (h : ownList key privs k = false) :
    (runOps ops st).get k = st.get k := by
  induction ops generalizing st with
  | nil => rfl
  | cons op ops ih =>
    rw [runOps, ih _ (fun o ho => hkey o (List.mem_cons_of_mem _ ho))
      (fun o ho => hpriv o (List.mem_cons_of_mem _ ho)),
      get_apply_other op st key privs k (hkey op (List.mem_cons_self _ _))
        (hpriv op (List.mem_cons_self _ _)) h]

theorem Store.held_eq_sum (st : Store) (p : GoString → Bool) (S : Finset GoString)
    (h : st.keys.toFinset ⊆ S) :
    st.held p = ∑ k in S.filter (fun k => p k = true), (↑(st.get k) : Multiset GoString) := by
  unfold Store.held
  apply Finset.sum_subset (Finset.filter_subset_filter _ h)
  intro x hx hnx
  have hxk : x ∉ st.keys := by
    intro hm
    apply hnx
    simp only [Finset.mem_filter, List.mem_toFinset] at hx ⊢
    exact ⟨hm, hx.2⟩
  rw [Store.get_of_not_mem_keys st x hxk]
  rfl

theorem held_of_frame (st st1 : Store) (p : GoString → Bool) (m : Multiset GoString)
    (he : st1.elems = st.elems + m) (hf : ∀ k, p k = false → st1.get k = st.get k) :
    st1.held p = st.held p + m := by
  have h0 : st.keys.toFinset ⊆ st.keys.toFinset ∪ st1.keys.toFinset := Finset.subset_union_left
  have h1 : st1.keys.toFinset ⊆ st.keys.toFinset ∪ st1.keys.toFinset :=
    Finset.subset_union_right
  have e0 := Store.elems_eq_sum st _ h0
  have e1 := Store.elems_eq_sum st1 _ h1
  rw [← Finset.sum_filter_add_sum_filter_not _ (fun k => p k = true)] at e0 e1
  rw [← Store.held_eq_sum st p _ h0] at e0
  rw [← Store.held_eq_sum st1 p _ h1] at e1
  have hrest : ∑ k in (st.keys.toFinset ∪ st1.keys.toFinset).filter (fun k => ¬ p k = true),
      (↑(st1.get k) : Multiset GoString)
      = ∑ k in (st.keys.toFinset ∪ st1.keys.toFinset).filter (fun k => ¬ p k = true),
        (↑(st.get k) : Multiset GoString) := by
    apply Finset.sum_congr rfl
    intro x hx
    simp only [Finset.mem_filter, Bool.not_eq_true] at hx
    rw [hf x hx.2]
  rw [hrest] at e1
  rw [e0, e1] at he
  have : st1.held p + ∑ k in (st.keys.toFinset ∪ st1.keys.toFinset).filter
        (fun k => ¬ p k = true), (↑(st.get k) : Multiset GoString)
      = (st.held p + m) + ∑ k in (st.keys.toFinset ∪ st1.keys.toFinset).filter
        (fun k => ¬ p k = true), (↑(st.get k) : Multiset GoString) := by
    rw [he]
    abel
  exact add_right_cancel this

/-! ## The sweep on example stores -/

theorem returnKeys_unparsable (qkey : GoString) (interval : Int) (clock : Nat → Int)
    (keys : List GoString) (t : Nat) (st : Store)
    (h : ∀ key ∈ keys, ParseInt ((Split key TimestampSeparator).getLastD []) = none) :
    returnKeys qkey interval clock keys t st = (st, t) := by
  induction keys with
  | nil => rfl
  | cons key keys ih =>
    rw [returnKeys]
    simp only [h key (List.mem_cons_self _ _)]
    exact ih (fun k hk => h k (List.mem_cons_of_mem _ hk))

theorem returnLoop_stuck (qkey : GoString) (interval : Int) (clock : Nat → Int) (st : Store)
    (keys : List GoString) (cursor : Nat)
    (hscan : Scan 0 (qkey ++ TimestampSeparator ++ [42]) 100 st = (keys, cursor, none))
    (hkeys : keys.length ≠ 0) (hcur : cursor ≠ 0)
    (hskip : ∀ key ∈ keys, ParseInt ((Split key TimestampSeparator).getLastD []) = none)
    (n t : Nat) : returnLoop qkey interval clock n t st = (st, none) := by
  induction n with
  | zero => rfl
  | succ n ih =>
    rw [returnLoop, hscan]
    simp only [hkeys, hcur, if_false, returnKeys_unparsable _ _ _ _ _ _ hskip]
    exact ih

set_option maxRecDepth 100000 in
theorem staleStore_scan :
    Scan 0 (ascii "q" ++ TimestampSeparator ++ [42]) 100 staleStore
      = (staleStore.keys.take 100, 100, none) := by
  decide

set_option maxRecDepth 100000 in
theorem staleStore_unparsable :
    ∀ key ∈ staleStore.keys.take 100,
      ParseInt ((Split key TimestampSeparator).getLastD []) = none := by
  decide

set_option maxRecDepth 100000 in
theorem staleStore_match :
    (staleStore.keys.all (globMatch (ascii "q" ++ TimestampSeparator ++ [42]))) = true := by
  decide

theorem twoPopped_sweep (clock : Nat → Int) (n : Nat) :
    returnLoop (ascii "q") 0 clock (n + 1) 0 twoPopped
      = ([(ascii "q:@5", [ascii "b"]), (ascii "q", [ascii "a"])], some none) := by
  have hscan : Scan 0 (ascii "q" ++ TimestampSeparator ++ [42]) 100 twoPopped
      = ([ascii "q:@5"], 0, none) := by decide
  have hparse : ParseInt ((Split (ascii "q:@5") TimestampSeparator).getLastD []) = some 5 := by
    decide
  have hmove : (RPopLPush (ascii "q:@5") (ascii "q") twoPopped).1
      = [(ascii "q:@5", [ascii "b"]), (ascii "q", [ascii "a"])] := by decide
  rw [returnLoop, hscan]
  simp only [returnKeys, hparse]
  simp [hmove]

theorem onePopped_sweep (clock : Nat → Int) (n : Nat) :
    returnLoop (ascii "q") 0 clock (n + 1) 0 onePopped
      = ([(ascii "q", [ascii "a"])], some none) := by
  have hscan : Scan 0 (ascii "q" ++ TimestampSeparator ++ [42]) 100 onePopped
      = ([ascii "q:@5"], 0, none) := by decide
  have hparse : ParseInt ((Split (ascii "q:@5") TimestampSeparator).getLastD []) = some 5 := by
    decide
  have hmove : (RPopLPush (ascii "q:@5") (ascii "q") onePopped).1
      = [(ascii "q", [ascii "a"])] := by decide
  rw [returnLoop, hscan]
  simp only [returnKeys, hparse]
  simp [hmove]

/-! ## The dispatcher: invariants of every reachable state -/

theorem register_fields (assistants : List Assistanter) (q : RedisQueueAssistant) :
    (assistants.foldl (fun q a => q.RegisterAssistanter (some a)) q).queue = q.queue ∧
    (assistants.foldl (fun q a => q.RegisterAssistanter (some a)) q).maxConcurrency
      = q.maxConcurrency ∧
    (assistants.foldl (fun q a => q.RegisterAssistanter (some a)) q).err = q.err := by
  induction assistants generalizing q with
  | nil => exact ⟨rfl, rfl, rfl⟩
  | cons a l ih =>
    simp only [List.foldl_cons]
    obtain ⟨h1, h2, h3⟩ := ih (q.RegisterAssistanter (some a))
    exact ⟨h1, h2, h3⟩

theorem Inv_init (queue : RedisListQueue) (k : Nat) (assistants : List Assistanter)
    (store : Store) : Inv k (System.init queue k assistants store) := by
  obtain ⟨_, h2, h3⟩ := register_fields assistants (NewRedisQueueAssistant queue k)
  refine ⟨?_, ?_, ?_, ?_, ?_⟩
  · simp only [System.init, System.enter, h2]
    rfl
  · simp only [System.init, System.enter, System.tokens, h2]
    rfl
  · simp only [System.init, System.enter, System.tokens, h2]
    simp [NewRedisQueueAssistant]
  · intro ch hch
    simp only [System.init, System.enter, h3] at hch
    simp [NewRedisQueueAssistant] at hch
  · intro h
    simp [System.init, System.enter] at h

theorem assign_fields (s : System) (c : Nat) (v : Option (Option GoError)) :
    (s.assign c v).q = s.q ∧ (s.assign c v).jobs = s.jobs ∧ (s.assign c v).loop = s.loop ∧
      (s.assign c v).cancelled = s.cancelled ∧ (s.assign c v).store = s.store ∧
      (s.assign c v).dispatched = s.dispatched := by
  unfold System.assign
  split
  · simp
  · split <;> simp

theorem Chan.send_some {α : Type} (c c1 : Chan α) (a : α) (h : c.send a = some c1) :
    c.buf.length < c.cap ∧ c1.cap = c.cap ∧ c1.buf = c.buf ++ [a] := by
  unfold Chan.send at h
  split at h
  · next hlt =>
    simp only [Option.some.injEq] at h
    subst h
    exact ⟨hlt, rfl, rfl⟩
  · simp at h

theorem Chan.recv_some {α : Type} (c c1 : Chan α) (a : α) (h : c.recv = some (a, c1)) :
    c1.cap = c.cap ∧ c.buf = a :: c1.buf := by
  unfold Chan.recv at h
  split at h
  · simp at h
  · next b rest hb =>
    simp only [Option.some.injEq, Prod.mk.injEq] at h
    obtain ⟨h1, h2⟩ := h
    subst h1 h2
    exact ⟨rfl, hb⟩

theorem Inv_loopStep (k : Nat) (s s1 : System) (hs : Inv k s) (h : loopStep s = some s1) :
    Inv k s1 := by
  obtain ⟨h1, h2, h3, h4, h5⟩ := hs
  unfold loopStep at h
  split at h
  · split at h
    · next hc =>
      simp only [Option.some.injEq] at h
      subst h
      exact ⟨h1, h2, h3, h4, fun _ => hc⟩
    · split at h <;>
      · simp only [Option.some.injEq] at h
        subst h
        refine ⟨h1, h2, h3, h4, ?_⟩
        intro hst
        simp at hst
  · split at h
    · simp at h
    · next ch hch =>
      simp only [Option.some.injEq] at h
      subst h
      obtain ⟨hlt, hcap, hbuf⟩ := Chan.send_some _ _ _ hch
      simp only [System.tokens] at h2 h3
      refine ⟨by simpa [hcap] using h1, ?_, ?_, h4, ?_⟩
      · simp [System.tokens, hbuf, h2]
      · simp only [System.tokens, hbuf, List.length_append, List.length_singleton]
        omega
      · intro hst
        simp at hst
  · simp only [Option.some.injEq] at h
    subst h
    refine ⟨h1, h2, h3, h4, ?_⟩
    intro hst
    simp at hst
  · split at h
    · simp only [Option.some.injEq] at h
      subst h
      refine ⟨h1, h2, h3, h4, ?_⟩
      intro hst
      simp at hst
    · next ch hch =>
      split at h
      · simp at h
      · next ch1 hch1 =>
        simp only [Option.some.injEq] at h
        subst h
        obtain ⟨_, hcap, _⟩ := Chan.send_some _ _ _ hch1
        refine ⟨h1, h2, h3, ?_, ?_⟩
        · intro c hc
          simp only [Option.some.injEq] at hc
          subst hc
          rw [hcap]
          exact h4 ch hch
        · intro hst
          simp at hst
  · simp at h

theorem Inv_jobStep (k i : Nat) (s s1 : System) (hs : Inv k s) (h : jobStep i s = some s1) :
    Inv k s1 := by
  obtain ⟨h1, h2, h3, h4, h5⟩ := hs
  unfold jobStep at h
  split at h
  · simp at h
  · next j hj =>
    have hi : i < s.jobs.length := (List.getElem?_eq_some.mp hj).1
    split at h
    · simp only at h
      split at h <;>
      · simp only [Option.some.injEq] at h
        subst h
        obtain ⟨a1, a2, a3, a4, _, _⟩ := assign_fields
          { s with jobs := s.jobs.set i { j with pc := JobPC.deferred _ },
                   dispatched := _ } j.cycle _
        refine ⟨by rw [a1]; exact h1, ?_, ?_, ?_, ?_⟩
        · simp only [System.tokens] at h2 ⊢
          rw [a1, a2]
          simpa using h2
        · simp only [System.tokens] at h3 ⊢
          rw [a1]
          exact h3
        · rw [a1]
          exact h4
        · rw [a3, a4]
          exact h5
    · simp only [Option.some.injEq] at h
      subst h
      exact ⟨h1, by simpa [System.tokens] using h2, h3, h4, h5⟩
    · split at h
      · simp only [Option.some.injEq] at h
        subst h
        exact ⟨h1, by simpa [System.tokens] using h2, h3, h4, h5⟩
      · next ch hch =>
        split at h
        · simp at h
        · next ch1 hch1 =>
          simp only [Option.some.injEq] at h
          subst h
          obtain ⟨_, hcap, _⟩ := Chan.send_some _ _ _ hch1
          refine ⟨h1, by simpa [System.tokens] using h2, h3, ?_, h5⟩
          intro c hc
          simp only [Option.some.injEq] at hc
          subst hc
          rw [hcap]
          exact h4 ch hch
    · split at h
      · simp at h
      · next u ch hch =>
        simp only [Option.some.injEq] at h
        subst h
        obtain ⟨hcap, hbuf⟩ := Chan.recv_some _ _ _ hch
        simp only [System.tokens] at h2 h3
        rw [hbuf] at h2 h3
        simp only [List.length_cons] at h2 h3
        refine ⟨by simpa [hcap] using h1, ?_, ?_, h4, h5⟩
        · simp only [System.tokens, List.length_eraseIdx, hi, if_true]
          omega
        · simp only [System.tokens]
          omega

theorem Inv_step (k : Nat) (a : Action) (s s1 : System) (hs : Inv k s) (h : step a s = some s1) :
    Inv k s1 := by
  cases a with
  | loop => exact Inv_loopStep k s s1 hs h
  | job i => exact Inv_jobStep k i s s1 hs h
  | callError =>
    obtain ⟨h1, h2, h3, h4, h5⟩ := hs
    simp only [step, Option.some.injEq] at h
    subst h
    refine ⟨?_, ?_, ?_, ?_, h5⟩
    · unfold RedisQueueAssistant.Error
      split <;> simpa using h1
    · unfold System.tokens RedisQueueAssistant.Error
      split <;> simpa [System.tokens] using h2
    · unfold System.tokens RedisQueueAssistant.Error
      split <;> simpa [System.tokens] using h3
    · intro ch hch
      unfold RedisQueueAssistant.Error at hch
      split at hch
      · simp only [Option.some.injEq] at hch
        subst hch
        rfl
      · exact h4 ch hch
  | recv =>
    obtain ⟨h1, h2, h3, h4, h5⟩ := hs
    simp only [step] at h
    split at h
    · simp at h
    · next ch hch =>
      split at h
      · simp at h
      · next u ch1 hch1 =>
        simp only [Option.some.injEq] at h
        subst h
        obtain ⟨hcap, _⟩ := Chan.recv_some _ _ _ hch1
        refine ⟨h1, h2, h3, ?_, h5⟩
        intro c hc
        simp only [Option.some.injEq] at hc
        subst hc
        rw [hcap]
        exact h4 ch hch
  | cancel =>
    obtain ⟨h1, h2, h3, h4, h5⟩ := hs
    simp only [step, Option.some.injEq] at h
    subst h
    exact ⟨h1, h2, h3, h4, fun _ => rfl⟩
  | push d =>
    obtain ⟨h1, h2, h3, h4, h5⟩ := hs
    simp only [step, Option.some.injEq] at h
    subst h
    exact ⟨h1, h2, h3, h4, h5⟩

theorem Inv_exec (k : Nat) (acts : List Action) (s s1 : System) (hs : Inv k s)
    (h : exec acts s = some s1) : Inv k s1 := by
  induction acts generalizing s with
  | nil =>
    simp only [exec, Option.some.injEq] at h
    subst h
    exact hs
  | cons a rest ih =>
    simp only [exec] at h
    cases hstep : step a s with
    | none => simp [hstep] at h
    | some s2 =>
      rw [hstep] at h
      exact ih s2 (Inv_step k a s s2 hs hstep) h

/-! ## The dispatcher: a job goroutine runs to its exit -/

theorem jobStep_release (s : System) (i : Nat) (j : Job) (hj : s.jobs[i]? = some j)
    (hpc : j.pc = JobPC.release) (htok : s.jobs.length = s.tokens) :
    ∃ s1, jobStep i s = some s1 ∧ s1.tokens + 1 = s.tokens ∧ s1.jobs.length + 1 = s.jobs.length ∧
      s1.q.err = s.q.err ∧ s1.loop = s.loop := by
  have hi : i < s.jobs.length := (List.getElem?_eq_some.mp hj).1
  obtain ⟨c, pc⟩ := j
  simp only at hpc
  subst hpc
  cases hb : s.q.maxConcurrency.buf with
  | nil =>
    simp only [System.tokens, hb, List.length_nil] at htok
    omega
  | cons u rest =>
    refine ⟨{ s with q := { s.q with maxConcurrency := { s.q.maxConcurrency with buf := rest } },
                     jobs := s.jobs.eraseIdx i }, ?_, ?_, ?_, rfl, rfl⟩
    · simp [jobStep, hj, Chan.recv, hb]
    · simp [System.tokens, hb]
    · simp only [List.length_eraseIdx, hi, if_true]
      omega

theorem jobStep_deferred (s : System) (i : Nat) (j : Job) (r : Option GoError)
    (hj : s.jobs[i]? = some j) (hpc : j.pc = JobPC.deferred r)
    (room : r ≠ none → ∀ ch, s.q.err = some ch → ch.buf.length < ch.cap) :
    ∃ s1, jobStep i s = some s1 ∧ s1.jobs = s.jobs.set i { j with pc := JobPC.release } ∧
      s1.tokens = s.tokens ∧ s1.loop = s.loop ∧
      (∀ e ch, r = some e → s.q.err = some ch → s1.errors = s.errors ++ [some e]) := by
  obtain ⟨c, pc⟩ := j
  simp only at hpc
  subst hpc
  cases r with
  | none =>
    exact ⟨{ s with jobs := s.jobs.set i { cycle := c, pc := JobPC.release } },
      by simp only [jobStep, hj], rfl, rfl, rfl, fun e ch h _ => by simp at h⟩
  | some e =>
    cases he : s.q.err with
    | none =>
      refine ⟨{ s with jobs := s.jobs.set i { cycle := c, pc := JobPC.release } }, ?_, rfl, rfl,
        rfl, ?_⟩
      · simp only [jobStep, hj, he]
      · intro e2 ch _ h
        simp at h
    | some ch =>
      have hroom := room (by simp) ch he
      refine ⟨{ s with q := { s.q with err := some { ch with buf := ch.buf ++ [some e] } },
                       jobs := s.jobs.set i { cycle := c, pc := JobPC.release } },
        ?_, rfl, rfl, rfl, ?_⟩
      · simp [jobStep, hj, he, Chan.send, hroom]
      · intro e2 ch2 h1 _
        simp only [Option.some.injEq] at h1
        subst h1
        simp [System.errors, he]

theorem jobStep_start (s : System) (i : Nat) (j : Job) (kind raw : GoString)
    (hj : s.jobs[i]? = some j) (hpc : j.pc = JobPC.start kind raw) :
    ∃ s1, jobStep i s = some s1 ∧
      s1.jobs = s.jobs.set i
        { j with pc := JobPC.deferred ((jobBody s.q kind raw).panicked.map recoverError) } ∧
      s1.q = s.q ∧ s1.loop = s.loop ∧ s1.cancelled = s.cancelled ∧ s1.store = s.store ∧
      s1.dispatched = (if (jobBody s.q kind raw).found then s.dispatched ++ [(kind, raw)]
        else s.dispatched) := by
  obtain ⟨c, pc⟩ := j
  simp only at hpc
  subst hpc
  cases hp : (jobBody s.q kind raw).panicked with
  | none =>
    obtain ⟨a1, a2, a3, a4, a5, a6⟩ := assign_fields
      { s with jobs := s.jobs.set i { cycle := c, pc := JobPC.deferred none },
               dispatched := if (jobBody s.q kind raw).found then s.dispatched ++ [(kind, raw)]
                 else s.dispatched } c (jobBody s.q kind raw).assigned
    exact ⟨_, by simp only [jobStep, hj, hp], a2, a1, a3, a4, a5, a6⟩
  | some v =>
    obtain ⟨a1, a2, a3, a4, a5, a6⟩ := assign_fields
      { s with jobs := s.jobs.set i { cycle := c, pc := JobPC.deferred (some (recoverError v)) },
               dispatched := if (jobBody s.q kind raw).found then s.dispatched ++ [(kind, raw)]
                 else s.dispatched } c (some (some (recoverError v)))
    exact ⟨_, by simp only [jobStep, hj, hp], a2, a1, a3, a4, a5, a6⟩

theorem getElem?_set_same {α : Type} (l : List α) (i : Nat) (a b : α) (h : l[i]? = some a) :
    (l.set i b)[i]? = some b := by
  have hi : i < l.length := (List.getElem?_eq_some.mp h).1
  simp [List.getElem?_set, hi]

theorem job_exit (s : System) (i : Nat) (j : Job) (hj : s.jobs[i]? = some j)
    (htok : s.jobs.length = s.tokens)
    (room : j.sends s.q = true → ∀ ch, s.q.err = some ch → ch.buf.length < ch.cap) :
    ∃ n, n ≤ 3 ∧ ∃ s1, exec (List.replicate n (Action.job i)) s = some s1 ∧
      s1.tokens + 1 = s.tokens ∧ s1.jobs.length + 1 = s.jobs.length := by
  have fromRelease : ∀ (t : System) (jt : Job), t.jobs[i]? = some jt → jt.pc = JobPC.release →
      t.jobs.length = t.tokens →
      ∃ t1, exec [Action.job i] t = some t1 ∧ t1.tokens + 1 = t.tokens ∧
        t1.jobs.length + 1 = t.jobs.length := by
    intro t jt h1 h2 h3
    obtain ⟨t1, e1, e2, e3, _⟩ := jobStep_release t i jt h1 h2 h3
    exact ⟨t1, by simp [exec, step, e1], e2, e3⟩
  have fromDeferred : ∀ (t : System) (jt : Job) (r : Option GoError), t.jobs[i]? = some jt →
      jt.pc = JobPC.deferred r → t.jobs.length = t.tokens →
      (r ≠ none → ∀ ch, t.q.err = some ch → ch.buf.length < ch.cap) →
      ∃ t1, exec [Action.job i, Action.job i] t = some t1 ∧ t1.tokens + 1 = t.tokens ∧
        t1.jobs.length + 1 = t.jobs.length := by
    intro t jt r h1 h2 h3 h4
    obtain ⟨t1, e1, e2, e3, _⟩ := jobStep_deferred t i jt r h1 h2 h4
    have g1 : t1.jobs[i]? = some { jt with pc := JobPC.release } := by
      rw [e2]; exact getElem?_set_same _ _ _ _ h1
    have g2 : t1.jobs.length = t1.tokens := by rw [e2, e3]; simpa using h3
    obtain ⟨t2, f1, f2, f3⟩ := fromRelease t1 _ g1 rfl g2
    refine ⟨t2, ?_, by rw [f2, e3], by rw [f3, e2]; simp⟩
    simp only [exec, step, e1, Option.some_bind] at f1 ⊢
    exact f1
  cases hpc : j.pc with
  | release =>
    obtain ⟨s1, e1, e2, e3⟩ := fromRelease s j hj hpc htok
    exact ⟨1, by omega, s1, e1, e2, e3⟩
  | deferred r =>
    have hroom : r ≠ none → ∀ ch, s.q.err = some ch → ch.buf.length < ch.cap := by
      intro hr
      apply room
      cases r with
      | none => exact absurd rfl hr
      | some e => simp [Job.sends, hpc]
    obtain ⟨s1, e1, e2, e3⟩ := fromDeferred s j r hj hpc htok hroom
    exact ⟨2, by omega, s1, e1, e2, e3⟩
  | start kind raw =>
    obtain ⟨t1, e1, e2, e3, _⟩ := jobStep_start s i j kind raw hj hpc
    have g1 : t1.jobs[i]? = some
        { j with pc := JobPC.deferred ((jobBody s.q kind raw).panicked.map recoverError) } := by
      rw [e2]; exact getElem?_set_same _ _ _ _ hj
    have g2 : t1.jobs.length = t1.tokens := by
      rw [e2]
      simp only [System.tokens, e3, List.length_set]
      exact htok
    have g3 : (jobBody s.q kind raw).panicked.map recoverError ≠ none →
        ∀ ch, t1.q.err = some ch → ch.buf.length < ch.cap := by
      intro hr
      rw [e3]
      apply room
      cases hp : (jobBody s.q kind raw).panicked with
      | none => simp [hp] at hr
      | some w => simp [Job.sends, hpc, hp]
    obtain ⟨t2, f1, f2, f3⟩ := fromDeferred t1 _ _ g1 rfl g2 g3
    refine ⟨3, by omega, t2, ?_, ?_, ?_⟩
    · simp only [List.replicate, exec, step, e1, Option.some_bind] at f1 ⊢
      exact f1
    · rw [f2]; simp only [System.tokens, e3]
    · rw [f3, e2]; simp

/-! ## The dispatcher: sending on the error channel -/

theorem loopStep_send_room (s : System) (e : Option GoError) (ch : Chan (Option GoError))
    (hl : s.loop = LoopPC.send e) (he : s.q.err = some ch) (hroom : ch.buf.length < ch.cap) :
    ∃ s1, step Action.loop s = some s1 ∧ s1.loop = LoopPC.top ∧ s1.errors = s.errors ++ [e] := by
  refine ⟨{ s with q := { s.q with err := some { ch with buf := ch.buf ++ [e] } },
                   loop := LoopPC.top }, ?_, rfl, ?_⟩
  · simp [step, loopStep, hl, he, Chan.send, hroom]
  · simp [System.errors, he]

theorem loopStep_send_full (s : System) (e : Option GoError) (ch : Chan (Option GoError))
    (hl : s.loop = LoopPC.send e) (he : s.q.err = some ch) (hfull : ch.cap ≤ ch.buf.length) :
    step Action.loop s = none := by
  simp [step, loopStep, hl, he, Chan.send, Nat.not_lt.mpr hfull]

theorem jobStep_report_full (s : System) (i : Nat) (j : Job) (e : GoError)
    (ch : Chan (Option GoError)) (hj : s.jobs[i]? = some j)
    (hpc : j.pc = JobPC.deferred (some e)) (he : s.q.err = some ch)
    (hfull : ch.cap ≤ ch.buf.length) : step (Action.job i) s = none := by
  obtain ⟨c, pc⟩ := j
  simp only at hpc
  subst hpc
  simp [step, jobStep, hj, he, Chan.send, Nat.not_lt.mpr hfull]

/-! ## The dispatcher: a panicking job and the job behind it -/

theorem jobBody_assistants (q1 q2 : RedisQueueAssistant) (h : q1.assistants = q2.assistants)
    (kind raw : GoString) : jobBody q1 kind raw = jobBody q2 kind raw := by
  simp only [jobBody, RedisQueueAssistant.Load, h]

theorem panicked_found (q : RedisQueueAssistant) (kind raw : GoString) (v : PanicValue)
    (h : (jobBody q kind raw).panicked = some v) : (jobBody q kind raw).found = true := by
  unfold jobBody at h ⊢
  cases hL : q.Load kind with
  | none => simp [hL] at h
  | some a =>
    simp only [hL]
    cases hU : a.Unmarshal raw with
    | panic w => rfl
    | ret e =>
      cases e with
      | some e => rfl
      | none =>
        simp only
        cases hD : a.Done raw <;> rfl

theorem exec_append (l1 l2 : List Action) (s : System) :
    exec (l1 ++ l2) s = (exec l1 s).bind (exec l2) := by
  induction l1 generalizing s with
  | nil => simp [exec]
  | cons a l1 ih =>
    simp only [List.cons_append, exec]
    cases step a s with
    | none => rfl
    | some s1 => simpa using ih s1


/-! ## The dispatcher: every interleaving of the loop with a panicking job -/

theorem jobB_early (sc : Scene) (cB lp : Nat) (h : lp < 4) : sc.jobB cB lp = [] := by
  simp [Scene.jobB, Nat.ne_of_lt h]

theorem Phase_loop (sc : Scene) (v : PanicValue) (hok : sc.Ok v) (lp jp : Nat) (s : System)
    (hP : sc.Phase lp jp s) (hlp : lp < 4) (hjp : jp ≤ 3) :
    (step Action.loop s = none ∧ lp = 3 ∧ jp < 3 ∧ sc.k = 1) ∨
    (∃ s1, step Action.loop s = some s1 ∧ sc.Phase (lp + 1) jp s1) := by
  obtain ⟨hk, hroom, hrv, hpop, hsplit, hpA, hfB⟩ := hok
  obtain ⟨⟨qq, mc, as, er⟩, st, canc, lo, cyc, ev, jb, disp⟩ := s
  obtain ⟨hq, has, hcap, hc, htok, ⟨buf, herr, hlen, hmem⟩, hloop, hst, ⟨cA, cB, hjobs⟩, hdisp⟩ := hP
  simp only [System.tokens] at hq has hcap hc htok herr hloop hst hjobs hdisp
  subst hq has hc herr
  have hjb : jb = sc.jobA cA jp := by rw [hjobs, jobB_early sc cB lp hlp, List.append_nil]
  interval_cases lp
  · -- before `return`
    simp only [Scene.loopAt] at hloop
    simp only [Nat.zero_le, if_true] at hst
    subst hloop hst
    right
    refine ⟨⟨⟨sc.queue, mc, sc.assistants, some ⟨32, buf⟩⟩, sc.storeA, false, LoopPC.send ev,
      cyc, ev, jb, disp⟩, by simp only [step, loopStep], ?_⟩
    refine ⟨rfl, rfl, hcap, rfl, htok, ⟨buf, rfl, by simpa using hlen, hmem⟩, ⟨ev, rfl⟩,
      by simp, ⟨cA, cB, by rw [hjb, jobB_early sc cB 1 (by omega), List.append_nil]⟩, hdisp⟩
  · -- before the send
    simp only [Scene.loopAt] at hloop
    obtain ⟨e, hloop⟩ := hloop
    simp only [show (1 : Nat) ≤ 2 by omega, if_true] at hst
    subst hloop hst
    have hlt : buf.length < 32 := by
      rw [hlen]
      simp only [show ¬ (2 ≤ 1) by omega, if_false]
      split <;> omega
    right
    refine ⟨⟨⟨sc.queue, mc, sc.assistants, some ⟨32, buf ++ [e]⟩⟩, sc.storeA, false,
      LoopPC.top, cyc, ev, jb, disp⟩, by simp [step, loopStep, Chan.send, hlt], ?_⟩
    refine ⟨rfl, rfl, hcap, rfl, htok, ⟨buf ++ [e], rfl, ?_, ?_⟩, rfl, by simp,
      ⟨cA, cB, by rw [hjb, jobB_early sc cB 2 (by omega), List.append_nil]⟩, hdisp⟩
    · simp only [List.length_append, List.length_singleton, hlen]
      simp
      omega
    · intro h
      exact List.mem_append_left _ (hmem h)
  · -- at the top
    simp only [Scene.loopAt] at hloop
    simp only [show (2 : Nat) ≤ 2 by omega, if_true] at hst
    subst hloop hst
    right
    refine ⟨⟨⟨sc.queue, mc, sc.assistants, some ⟨32, buf⟩⟩, sc.storeB, false,
      LoopPC.acquire sc.nameB sc.rawB, cyc + 1, none, jb, disp⟩,
      by simp [step, loopStep, RedisQueueAssistant.Pop, hpop, hsplit], ?_⟩
    refine ⟨rfl, rfl, hcap, rfl, htok, ⟨buf, rfl, by simpa using hlen, hmem⟩, rfl, by simp,
      ⟨cA, cB, by rw [hjb, jobB_early sc cB 3 (by omega), List.append_nil]⟩, hdisp⟩
  · -- before taking B's token
    simp only [Scene.loopAt] at hloop
    simp only [show ¬ ((3 : Nat) ≤ 2) by omega, if_false] at hst
    subst hloop hst
    by_cases hfree : mc.buf.length < mc.cap
    · right
      refine ⟨⟨⟨sc.queue, ⟨mc.cap, mc.buf ++ [()]⟩, sc.assistants, some ⟨32, buf⟩⟩, sc.storeB,
        false, LoopPC.ret, cyc, ev, jb ++ [⟨cyc, JobPC.start sc.nameB sc.rawB⟩], disp⟩,
        by simp [step, loopStep, Chan.send, hfree], ?_⟩
      refine ⟨rfl, rfl, hcap, rfl, ?_, ⟨buf, rfl, by simpa using hlen, hmem⟩, rfl, by simp,
        ⟨cA, cyc, by rw [hjb]; simp [Scene.jobB]⟩, hdisp⟩
      simp [System.tokens, htok]
    · left
      have hlenA : jp < 3 → (sc.jobA cA jp).length = 1 := by
        intro h
        interval_cases jp <;> rfl
      refine ⟨by simp [step, loopStep, Chan.send, hfree], rfl, ?_, ?_⟩
      · by_contra h3
        have hj : jp = 3 := by omega
        subst hj
        rw [hjb] at htok
        simp only [Scene.jobA, List.length_nil] at htok
        omega
      · by_contra hk1
        have hj : mc.buf.length ≤ 1 := by
          rw [htok, hjb]
          by_cases h3 : jp < 3
          · rw [hlenA h3]
          · have hj : jp = 3 := by omega
            subst hj
            simp [Scene.jobA]
        omega

theorem Phase_job (sc : Scene) (v : PanicValue) (hok : sc.Ok v) (lp jp : Nat) (s : System)
    (hP : sc.Phase lp jp s) (_hlp : lp ≤ 4) (hjp : jp < 3) :
    ∃ s1, step (Action.job 0) s = some s1 ∧ sc.Phase lp (jp + 1) s1 := by
  obtain ⟨hk, hroom, hrv, hpop, hsplit, hpA, hfB⟩ := hok
  obtain ⟨⟨qq, mc, as, er⟩, st, canc, lo, cyc, ev, jb, disp⟩ := s
  obtain ⟨hq, has, hcap, hc, htok, ⟨buf, herr, hlen, hmem⟩, hloop, hst, ⟨cA, cB, hjobs⟩, hdisp⟩ := hP
  simp only [System.tokens] at hq has hcap hc htok herr hloop hst hjobs hdisp
  subst hq has hc herr
  generalize hB : sc.jobB cB lp = B at hjobs
  interval_cases jp
  · -- the body panics
    simp only [Scene.jobA, List.singleton_append] at hjobs
    simp only [show ¬ (1 ≤ 0) by omega, if_false] at hdisp
    subst hjobs hdisp
    have hp := hpA ⟨sc.queue, mc, sc.assistants, some ⟨32, buf⟩⟩ rfl
    have hf := panicked_found _ _ _ _ hp
    obtain ⟨s1, e1, e2, e3, e4, e5, e6, e7⟩ := jobStep_start
      ⟨⟨sc.queue, mc, sc.assistants, some ⟨32, buf⟩⟩, st, false, lo, cyc, ev,
        ⟨cA, JobPC.start sc.nameA sc.rawA⟩ :: B, []⟩ 0
      ⟨cA, JobPC.start sc.nameA sc.rawA⟩ sc.nameA sc.rawA (by simp) rfl
    refine ⟨s1, e1, ?_⟩
    simp only [hp, hf, Option.map_some', if_true, List.nil_append, ← hrv, List.set_cons_zero]
      at e2 e7
    refine ⟨by rw [e3], by rw [e3], by rw [e3]; exact hcap, e5, ?_,
      ⟨buf, by rw [e3], by simpa using hlen, by intro h; omega⟩, by rw [e4]; exact hloop,
      by rw [e6]; exact hst, ⟨cA, cB, by rw [e2, hB]; rfl⟩, by rw [e7]; rfl⟩
    simp only [System.tokens, e3, e2]
    simpa using htok
  · -- the deferred function sends the recovered error
    simp only [Scene.jobA, List.singleton_append] at hjobs
    simp only [show (1 : Nat) ≤ 1 by omega, if_true] at hdisp
    subst hjobs hdisp
    have hlt : buf.length < 32 := by
      rw [hlen]
      simp only [show ¬ (2 ≤ 1) by omega, if_false]
      split <;> omega
    refine ⟨⟨⟨sc.queue, mc, sc.assistants, some ⟨32, buf ++ [some sc.rv]⟩⟩, st, false, lo, cyc,
      ev, ⟨cA, JobPC.release⟩ :: B, [(sc.nameA, sc.rawA)]⟩, ?_, ?_⟩
    · simp [step, jobStep, Chan.send, hlt]
    · refine ⟨rfl, rfl, hcap, rfl, by simpa [System.tokens] using htok,
        ⟨buf ++ [some sc.rv], rfl, ?_, by intro _; simp⟩, hloop, hst,
        ⟨cA, cB, by rw [hB]; rfl⟩, rfl⟩
      simp only [List.length_append, List.length_singleton, hlen]
      simp
  · -- the token is given back
    simp only [Scene.jobA, List.singleton_append] at hjobs
    simp only [show (1 : Nat) ≤ 2 by omega, if_true] at hdisp
    subst hjobs hdisp
    obtain ⟨c, b⟩ := mc
    cases b with
    | nil => simp at htok
    | cons u b =>
      refine ⟨⟨⟨sc.queue, ⟨c, b⟩, sc.assistants, some ⟨32, buf⟩⟩, st, false, lo, cyc, ev,
        B, [(sc.nameA, sc.rawA)]⟩, ?_, ?_⟩
      · simp [step, jobStep, Chan.recv]
      · refine ⟨rfl, rfl, hcap, rfl, ?_,
          ⟨buf, rfl, by simpa using hlen, by intro _; exact hmem (by omega)⟩,
          hloop, hst, ⟨cA, cB, by rw [hB]; rfl⟩, rfl⟩
        simp only [System.tokens, List.length_cons] at htok ⊢
        omega

theorem Phase_exec (sc : Scene) (v : PanicValue) (hok : sc.Ok v) (sched : List Bool)
    (lp jp : Nat) (s s1 : System) (hP : sc.Phase lp jp s) (hl : lp + sched.count true ≤ 4)
    (hj : jp + sched.count false ≤ 3) (h : exec (interleaving sched) s = some s1) :
    sc.Phase (lp + sched.count true) (jp + sched.count false) s1 := by
  induction sched generalizing lp jp s with
  | nil =>
    simp only [interleaving, List.map_nil, exec, Option.some.injEq] at h
    subst h
    simpa using hP
  | cons b sched ih =>
    cases b with
    | true =>
      simp only [List.count_cons_self, List.count_cons_of_ne (by decide : false ≠ true)] at hl hj ⊢
      simp only [interleaving, List.map_cons, if_true, exec] at h
      rcases Phase_loop sc v hok lp jp s hP (by omega) (by omega) with ⟨hn, _⟩ | ⟨s2, e2, hP2⟩
      · simp [hn] at h
      · rw [e2] at h
        have := ih (lp + 1) jp s2 hP2 (by omega) (by omega) h
        rw [show lp + (sched.count true + 1) = lp + 1 + sched.count true by omega]
        exact this
    | false =>
      simp only [List.count_cons_self, List.count_cons_of_ne (by decide : true ≠ false)] at hl hj ⊢
      simp only [interleaving, List.map_cons, Bool.false_eq_true, if_false, exec] at h
      obtain ⟨s2, e2, hP2⟩ := Phase_job sc v hok lp jp s hP (by omega) (by omega)
      rw [e2] at h
      have := ih lp (jp + 1) s2 hP2 (by omega) (by omega) h
      rw [show jp + (sched.count false + 1) = jp + 1 + sched.count false by omega]
      exact this

theorem Phase_runs (sc : Scene) (v : PanicValue) (hok : sc.Ok v) (hk2 : 2 ≤ sc.k)
    (sched : List Bool) (lp jp : Nat) (s : System) (hP : sc.Phase lp jp s)
    (hl : lp + sched.count true ≤ 4) (hj : jp + sched.count false ≤ 3) :
    (exec (interleaving sched) s).isSome = true := by
  induction sched generalizing lp jp s with
  | nil => rfl
  | cons b sched ih =>
    cases b with
    | true =>
      simp only [List.count_cons_self, List.count_cons_of_ne (by decide : false ≠ true)] at hl hj
      simp only [interleaving, List.map_cons, if_true, exec]
      rcases Phase_loop sc v hok lp jp s hP (by omega) (by omega) with ⟨_, _, _, hk1⟩ | ⟨s2, e2, hP2⟩
      · omega
      · rw [e2]
        exact ih (lp + 1) jp s2 hP2 (by omega) (by omega)
    | false =>
      simp only [List.count_cons_self, List.count_cons_of_ne (by decide : true ≠ false)] at hl hj
      simp only [interleaving, List.map_cons, Bool.false_eq_true, if_false, exec]
      obtain ⟨s2, e2, hP2⟩ := Phase_job sc v hok lp jp s hP (by omega) (by omega)
      rw [e2]
      exact ih lp (jp + 1) s2 hP2 (by omega) (by omega)

theorem Phase_canonical (sc : Scene) (v : PanicValue) (hok : sc.Ok v) (s : System)
    (hP : sc.Phase 0 0 s) :
    (exec (interleaving [true, true, true, false, false, false, true]) s).isSome = true := by
  have step1 : ∀ lp jp t, sc.Phase lp jp t → lp < 3 → jp ≤ 3 →
      ∃ t1, step Action.loop t = some t1 ∧ sc.Phase (lp + 1) jp t1 := by
    intro lp jp t h h1 h2
    rcases Phase_loop sc v hok lp jp t h (by omega) h2 with ⟨_, h3, _⟩ | h4
    · omega
    · exact h4
  obtain ⟨t1, e1, p1⟩ := step1 0 0 s hP (by omega) (by omega)
  obtain ⟨t2, e2, p2⟩ := step1 1 0 t1 p1 (by omega) (by omega)
  obtain ⟨t3, e3, p3⟩ := step1 2 0 t2 p2 (by omega) (by omega)
  obtain ⟨t4, e4, p4⟩ := Phase_job sc v hok 3 0 t3 p3 (by omega) (by omega)
  obtain ⟨t5, e5, p5⟩ := Phase_job sc v hok 3 1 t4 p4 (by omega) (by omega)
  obtain ⟨t6, e6, p6⟩ := Phase_job sc v hok 3 2 t5 p5 (by omega) (by omega)
  rcases Phase_loop sc v hok 3 3 t6 p6 (by omega) (by omega) with ⟨_, _, h3, _⟩ | ⟨t7, e7, _⟩
  · omega
  · simp [interleaving, exec, e1, e2, e3, e4, e5, e6, e7]

theorem Phase_finish (sc : Scene) (v : PanicValue) (hok : sc.Ok v) (s : System)
    (hP : sc.Phase 4 3 s) :
    ∃ s1, step (Action.job 0) s = some s1 ∧ some sc.rv ∈ s1.errors ∧
      s1.errors.length = sc.unread + 2 ∧ s1.loop = LoopPC.ret ∧ s1.cancelled = false ∧
      s1.dispatched = [(sc.nameA, sc.rawA), (sc.nameB, sc.rawB)] ∧ s1.tokens = 1 ∧
      s1.store = sc.storeB := by
  obtain ⟨_, _, _, _, _, _, hfB⟩ := hok
  obtain ⟨hq, has, hcap, hc, htok, ⟨buf, herr, hlen, hmem⟩, hloop, hst, ⟨cA, cB, hjobs⟩, hdisp⟩ := hP
  simp only [Scene.jobA, Scene.jobB, if_true, List.nil_append] at hjobs
  simp only [Scene.loopAt] at hloop
  simp only [show ¬ ((4 : Nat) ≤ 2) by omega, if_false] at hst
  simp only [show (1 : Nat) ≤ 3 by omega, if_true] at hdisp
  simp only [show (2 : Nat) ≤ 4 by omega, show (2 : Nat) ≤ 3 by omega, if_true] at hlen
  obtain ⟨s1, e1, e2, e3, e4, e5, e6, e7⟩ := jobStep_start s 0
    ⟨cB, JobPC.start sc.nameB sc.rawB⟩ sc.nameB sc.rawB (by rw [hjobs]; rfl) rfl
  rw [hfB s.q has, hdisp] at e7
  refine ⟨s1, e1, ?_, ?_, by rw [e4, hloop], by rw [e5, hc], by rw [e7]; rfl, ?_, by rw [e6, hst]⟩
  · simp only [System.errors, e3, herr]
    exact hmem (by omega)
  · simp only [System.errors, e3, herr, hlen]
  · simp only [System.tokens, e3]
    rw [show s.q.maxConcurrency.buf.length = s.tokens from rfl, htok, hjobs]
    rfl

theorem scene_start (q : RedisQueueAssistant) (hq : q.queue.privateKey ≠ q.queue.key)
    (hmc : q.maxConcurrency.buf = []) (hk : 1 ≤ q.maxConcurrency.cap)
    (unread : List (Option GoError)) (hroom : unread.length ≤ 30)
    (herr : q.err = some { cap := 32, buf := unread }) (store : Store)
    (rest : List GoString) (nameA rawA nameB rawB : GoString) (v : PanicValue)
    (hstore : store.get q.queue.key
      = rest ++ [signQueueDataFormat nameB rawB, signQueueDataFormat nameA rawA])
    (hA1 : Contains nameA signQueueData = false) (hA2 : Contains rawA signQueueData = false)
    (hB1 : Contains nameB signQueueData = false) (hB2 : Contains rawB signQueueData = false)
    (hpanic : (jobBody q nameA rawA).panicked = some v)
    (hB : (jobBody q nameB rawB).found = true) :
    ∃ sc : Scene, sc.Ok v ∧ sc.k = q.maxConcurrency.cap ∧ sc.unread = unread.length ∧
      sc.nameA = nameA ∧ sc.rawA = rawA ∧ sc.nameB = nameB ∧ sc.rawB = rawB ∧
      sc.rv = recoverError v ∧ sc.storeB.get q.queue.key = rest ∧
      ∃ s2, exec [Action.loop, Action.loop] (System.enter q store) = some s2 ∧
        sc.Phase 0 0 s2 := by
  obtain ⟨queue, mc, assistants, er⟩ := q
  obtain ⟨k, buf⟩ := mc
  simp only at hq hmc hk herr hstore
  subst hmc herr
  have hk0 : 0 < k := hk
  have hst : store.get queue.key
      = (rest ++ [signQueueDataFormat nameB rawB]) ++ [signQueueDataFormat nameA rawA] := by
    rw [hstore]; simp
  obtain ⟨p1, p2, _, _⟩ := RedisListQueue.Pop_tail_lists queue hq store _ _ hst
  obtain ⟨r1, r2, _, _⟩ := RedisListQueue.Pop_tail_lists queue hq (queue.Pop store).1 _ _ p2
  have hsA := splitData_roundtrip nameA rawA hA1 hA2
  have hsB := splitData_roundtrip nameB rawB hB1 hB2
  generalize hP1 : queue.Pop store = P1 at p1 p2 r1 r2
  obtain ⟨st1, d1, e1⟩ := P1
  simp only [Prod.mk.injEq] at p1
  obtain ⟨pd, pe⟩ := p1
  subst pd pe
  simp only at p2 r1 r2
  generalize hP2 : queue.Pop st1 = P2 at r1 r2
  obtain ⟨st2, d2, e2⟩ := P2
  simp only [Prod.mk.injEq] at r1
  obtain ⟨rd, re⟩ := r1
  subst rd re
  simp only at r2
  refine ⟨⟨queue, assistants, k, unread.length, st1, st2, nameA, rawA, nameB, rawB,
    recoverError v⟩, ?_, rfl, rfl, rfl, rfl, rfl, rfl, rfl, r2, ?_⟩
  · refine ⟨hk, by simp only; omega, rfl, hP2, hsB, ?_, ?_⟩
    · intro q2 h2
      rw [jobBody_assistants q2 ⟨queue, ⟨k, []⟩, assistants, some ⟨32, unread⟩⟩ h2]
      exact hpanic
    · intro q2 h2
      rw [jobBody_assistants q2 ⟨queue, ⟨k, []⟩, assistants, some ⟨32, unread⟩⟩ h2]
      exact hB
  · refine ⟨⟨⟨queue, ⟨k, [()]⟩, assistants, some ⟨32, unread⟩⟩, st1, false, LoopPC.ret, 1,
      none, [⟨1, JobPC.start nameA rawA⟩], []⟩, ?_, ?_⟩
    · simp [exec, step, loopStep, System.enter, RedisQueueAssistant.Pop, hP1, hsA, Chan.send,
        hk0]
    · refine ⟨rfl, rfl, rfl, rfl, rfl, ⟨unread, rfl, by simp, by intro h; omega⟩, rfl,
        by simp, ⟨1, 0, rfl⟩, rfl⟩

theorem panic_runs (q : RedisQueueAssistant) (hq : q.queue.privateKey ≠ q.queue.key)
    (hmc : q.maxConcurrency.buf = []) (hk : 1 ≤ q.maxConcurrency.cap)
    (unread : List (Option GoError)) (hroom : unread.length ≤ 30)
    (herr : q.err = some { cap := 32, buf := unread }) (store : Store)
    (rest : List GoString) (nameA rawA nameB rawB : GoString) (v : PanicValue)
    (hstore : store.get q.queue.key
      = rest ++ [signQueueDataFormat nameB rawB, signQueueDataFormat nameA rawA])
    (hA1 : Contains nameA signQueueData = false) (hA2 : Contains rawA signQueueData = false)
    (hB1 : Contains nameB signQueueData = false) (hB2 : Contains rawB signQueueData = false)
    (hpanic : (jobBody q nameA rawA).panicked = some v)
    (hB : (jobBody q nameB rawB).found = true) :
    (∀ sched : List Bool, sched.count true = 4 → sched.count false = 3 → ∀ s,
      exec ([Action.loop, Action.loop] ++ interleaving sched ++ [Action.job 0])
        (System.enter q store) = some s →
      some (recoverError v) ∈ s.errors ∧ s.errors.length = unread.length + 2 ∧
      s.loop = LoopPC.ret ∧ s.cancelled = false ∧
      s.dispatched = [(nameA, rawA), (nameB, rawB)] ∧ s.tokens = 1 ∧
      s.store.get q.queue.key = rest) ∧
    (2 ≤ q.maxConcurrency.cap → ∀ sched : List Bool, sched.count true = 4 →
      sched.count false = 3 →
      (exec ([Action.loop, Action.loop] ++ interleaving sched ++ [Action.job 0])
        (System.enter q store)).isSome = true) ∧
    (exec ([Action.loop, Action.loop] ++
        interleaving [true, true, true, false, false, false, true] ++ [Action.job 0])
      (System.enter q store)).isSome = true := by
  obtain ⟨sc, hok, hk1, hu, hnA, hrA, hnB, hrB, hrv, hrest, s2, hs2, hP0⟩ :=
    scene_start q hq hmc hk unread hroom herr store rest nameA rawA nameB rawB v hstore
      hA1 hA2 hB1 hB2 hpanic hB
  refine ⟨?_, ?_, ?_⟩
  · intro sched h4 h3 s hs
    rw [List.append_assoc, exec_append, hs2, Option.some_bind, exec_append] at hs
    cases hmid : exec (interleaving sched) s2 with
    | none => simp [hmid] at hs
    | some s3 =>
      rw [hmid, Option.some_bind] at hs
      have hP := Phase_exec sc v hok sched 0 0 s2 s3 hP0 (by omega) (by omega) hmid
      rw [h4, h3] at hP
      obtain ⟨s4, e4, g1, g2, g3, g4, g5, g6, g7⟩ := Phase_finish sc v hok s3 hP
      simp only [exec, e4, Option.some_bind, Option.some.injEq] at hs
      subst hs
      refine ⟨by rw [← hrv]; exact g1, by rw [g2, hu], g3, g4, ?_, g6, by rw [g7]; exact hrest⟩
      rw [g5, hnA, hrA, hnB, hrB]
  · intro hk2 sched h4 h3
    rw [List.append_assoc, exec_append, hs2, Option.some_bind, exec_append]
    have hrun := Phase_runs sc v hok (by rw [hk1]; exact hk2) sched 0 0 s2 hP0 (by omega)
      (by omega)
    obtain ⟨s3, hmid⟩ := Option.isSome_iff_exists.mp hrun
    have hP := Phase_exec sc v hok sched 0 0 s2 s3 hP0 (by omega) (by omega) hmid
    rw [h4, h3] at hP
    obtain ⟨s4, e4, _⟩ := Phase_finish sc v hok s3 hP
    rw [hmid, Option.some_bind]
    simp [exec, e4]
  · rw [List.append_assoc, exec_append, hs2, Option.some_bind, exec_append]
    have hrun := Phase_canonical sc v hok s2 hP0
    obtain ⟨s3, hmid⟩ := Option.isSome_iff_exists.mp hrun
    have hP := Phase_exec sc v hok [true, true, true, false, false, false, true] 0 0 s2 s3 hP0
      (by decide) (by decide) hmid
    obtain ⟨s4, e4, _⟩ := Phase_finish sc v hok s3 hP
    rw [hmid, Option.some_bind]
    simp [exec, e4]


theorem requested_fields (queue : RedisListQueue) (k : Nat) (assistants : List Assistanter)
    (unread : List (Option GoError)) (store : Store) :
    (System.requested queue k assistants unread store).q.queue = queue ∧
    (System.requested queue k assistants unread store).q.maxConcurrency
      = { cap := k, buf := [] } ∧
    (System.requested queue k assistants unread store).q.err
      = some { cap := 32, buf := unread } := by
  obtain ⟨f1, f2, _⟩ := register_fields assistants (NewRedisQueueAssistant queue k)
  exact ⟨f1, f2, rfl⟩

/-! ## The claims -/

/-- Claim C1, as stated, fails: the tag `"A"` has no separator, the payload
`"x#|y"` has one, and the envelope `"A#|x#|y"` that `Push` stores is rejected by
`Pop` with the split error, both by the split alone and through the store. -/
theorem envelope_payload_with_separator :
    Contains (ascii "A") signQueueData = false ∧
    RedisQueueAssistant.splitData (signQueueDataFormat (ascii "A") (ascii "x#|y"))
      ≠ (ascii "A", ascii "x#|y", none) ∧
    ((NewRedisQueueAssistant (NewRedisListQueue (ascii "q") 5) 1).Pop
        ((NewRedisQueueAssistant (NewRedisListQueue (ascii "q") 5) 1).Push
          { Name := ascii "A", Marshal := (ascii "x#|y", none) } []).1).2
      = ([], [], some (GoError.New "split mark error")) := by
  decide

/-- Claim C1, amended: for a tag without the separator, the split of `Pop` applied
to the string `tag + "#|" + payload` of `Push` returns exactly `(tag, payload)`
with no error when the payload has no separator either, and returns the error
`"split mark error"` when the payload contains the separator. -/
theorem envelope_roundtrip (tag payload : GoString)
    (htag : Contains tag signQueueData = false) :
    (Contains payload signQueueData = false →
      RedisQueueAssistant.splitData (signQueueDataFormat tag payload) = (tag, payload, none)) ∧
    (Contains payload signQueueData = true →
      RedisQueueAssistant.splitData (signQueueDataFormat tag payload)
        = ([], [], some (GoError.New "split mark error"))) :=
  ⟨splitData_roundtrip tag payload htag, splitData_payload_sign tag payload htag⟩

theorem envelope_roundtrip_witness :
    Contains (ascii "A") signQueueData = false ∧
    RedisQueueAssistant.splitData (signQueueDataFormat (ascii "A") (ascii "xy"))
      = (ascii "A", ascii "xy", none) :=
  ⟨by decide, (envelope_roundtrip (ascii "A") (ascii "xy") (by decide)).1 (by decide)⟩

/-- Claim C2 at its failing input: on a store whose shared list is empty,
`RedisQueue.Pop` returns the store's own `redis.Nil` (with the empty string as
data), which is not the queue-empty error, and leaves the store unchanged, while
`RedisListQueue.Pop` returns `(nil, QueueNilErr)`. -/
theorem Pop_on_empty_shared_list (key : GoString) (now : Int) :
    (NewRedisQueue key now).Pop [] = ([], some [], some GoError.GoRedisNil) ∧
    GoError.GoRedisNil ≠ GoError.QueueNilErr ∧
    (NewRedisListQueue key now).Pop [] = ([], none, some GoError.QueueNilErr) :=
  ⟨RedisQueue.Pop_nil_reply _ [] rfl, by decide, RedisListQueue.Pop_empty _ [] rfl⟩

/-- Claim C3: for a worker made by `NewRedisListQueue` and a value `x` that occurs
in its private list, `Remove(x)` returns no error, removes exactly the occurrence
of `x` nearest the tail and keeps the other elements in order, and leaves the
shared list and every other list unchanged; a value that does not occur leaves
the private list as it is; and after popping all values of a shared list into an
empty private list and calling `Remove` on each of them, in any order, the
private list is empty. -/
theorem Remove_last_occurrence (key : GoString) (now : Int) (x : GoString) (st : Store)
    (hx : x ∈ st.get (NewRedisListQueue key now).privateKey) :
    ((NewRedisListQueue key now).Remove x st).2 = none ∧
    (∃ l1 l2, st.get (NewRedisListQueue key now).privateKey = l1 ++ x :: l2 ∧ x ∉ l2 ∧
      ((NewRedisListQueue key now).Remove x st).1.get (NewRedisListQueue key now).privateKey
        = l1 ++ l2) ∧
    ((NewRedisListQueue key now).Remove x st).1.get key = st.get key ∧
    (∀ k, k ≠ (NewRedisListQueue key now).privateKey →
      ((NewRedisListQueue key now).Remove x st).1.get k = st.get k) ∧
    (∀ y, y ∉ st.get (NewRedisListQueue key now).privateKey →
      ((NewRedisListQueue key now).Remove y st).1.get (NewRedisListQueue key now).privateKey
        = st.get (NewRedisListQueue key now).privateKey) ∧
    (∀ (st0 : Store) (xs ys : List GoString), xs.Nodup → ys.Perm xs → st0.get key = xs →
      st0.get (NewRedisListQueue key now).privateKey = [] →
      (popN (NewRedisListQueue key now) xs.length st0).get
          (NewRedisListQueue key now).privateKey = xs ∧
      (removeEach (NewRedisListQueue key now) ys
        (popN (NewRedisListQueue key now) xs.length st0)).get
          (NewRedisListQueue key now).privateKey = [] ∧
      (removeEach (NewRedisListQueue key now) ys
        (popN (NewRedisListQueue key now) xs.length st0)).get key = []) := by
  have hq := NewRedisListQueue_privateKey_ne key now
  have hkey : (NewRedisListQueue key now).key = key := rfl
  refine ⟨?_, ?_, ?_, ?_, ?_, ?_⟩
  · rw [RedisListQueue.Remove_eq]
  · obtain ⟨l1, l2, e, hn, hr⟩ := lremList_last_of_mem x _ hx
    refine ⟨l1, l2, e, hn, ?_⟩
    rw [RedisListQueue.Remove_eq]
    simp only
    rw [Store.get_set_self, hr]
  · rw [RedisListQueue.Remove_eq]
    exact Store.get_set_ne _ _ _ _ (by rw [← hkey]; exact Ne.symm hq)
  · intro k hk
    rw [RedisListQueue.Remove_eq]
    exact Store.get_set_ne _ _ _ _ hk
  · intro y hy
    rw [RedisListQueue.Remove_eq]
    simp only
    rw [Store.get_set_self, lremList_last_of_not_mem y _ hy]
  · intro st0 xs ys _ hperm h1 h2
    obtain ⟨p1, p2⟩ := popN_all (NewRedisListQueue key now) hq xs st0 h1
    rw [h2, List.append_nil] at p2
    refine ⟨p2, ?_, ?_⟩
    · apply removeEach_perm
      rw [p2]
      exact hperm.symm
    · have := removeEach_other (NewRedisListQueue key now) ys
        (popN (NewRedisListQueue key now) xs.length st0) key (by rw [← hkey]; exact Ne.symm hq)
      rw [this]
      exact p1

theorem Remove_last_occurrence_witness :
    ascii "a" ∈ twoPopped.get (NewRedisListQueue (ascii "q") 5).privateKey ∧
    ((NewRedisListQueue (ascii "q") 5).Remove (ascii "a") twoPopped).2 = none ∧
    ((NewRedisListQueue (ascii "q") 5).Remove (ascii "a") twoPopped).1.get (ascii "q")
      = twoPopped.get (ascii "q") :=
  ⟨by decide,
   (Remove_last_occurrence (ascii "q") 5 (ascii "a") twoPopped (by decide)).1,
   (Remove_last_occurrence (ascii "q") 5 (ascii "a") twoPopped (by decide)).2.2.1⟩

/-- Claim C4 at its failing input: after `Push("a")`, `Push("b")`, `Pop()`, `Pop()`
the private list `"q:@5"` holds `["b", "a"]`; whatever the clock shows,
`ReturnElements(0)` returns nil after one pass that moved only the tail element
`"a"`, and the private list still holds `"b"`. With a single popped element the
private list is emptied. -/
theorem ReturnElements_moves_one_per_key (clock : Nat → Int) (n : Nat) :
    twoPopped = [(ascii "q:@5", [ascii "b", ascii "a"])] ∧
    (NewRedisListQueue (ascii "q") 5).ReturnElements 0 clock (n + 1) twoPopped
      = ([(ascii "q:@5", [ascii "b"]), (ascii "q", [ascii "a"])], some none) ∧
    ((NewRedisListQueue (ascii "q") 5).ReturnElements 0 clock (n + 1) twoPopped).1.get
        (NewRedisListQueue (ascii "q") 5).privateKey ≠ [] ∧
    (NewRedisListQueue (ascii "q") 5).ReturnElements 0 clock (n + 1) onePopped
      = ([(ascii "q", [ascii "a"])], some none) :=
  ⟨by decide, twoPopped_sweep clock n,
    by
      show (returnLoop (ascii "q") 0 clock (n + 1) 0 twoPopped).1.get _ ≠ []
      rw [twoPopped_sweep clock n]
      decide,
    onePopped_sweep clock n⟩

/-- Claim C5: for every sequence of `Push`, `Pop` and `ReturnElements` steps issued
by workers that share the key `key`, each taken as one atomic step (a sweep also
when cut after any number of loop iterations): the multiset of the elements held
in the shared list and the private lists (the workers' own, and every key the
sweep takes for a private list) is the initial one plus the pushed elements, so
no element is lost or duplicated and none leaves these lists; every other list of
the store is untouched; `Push` puts its element at the head of the shared list;
`Pop` moves the tail of the shared list to the head of the worker's private list
and does nothing when the shared list is empty; `Pop` and `ReturnElements`
preserve the multiset. Every occurrence is counted in the one list holding it. -/
theorem no_element_lost_or_duplicated (key : GoString) (ops : List QueueOp) (st : Store)
    (hkey : ∀ op ∈ ops, op.queue.key = key) :
    (runOps ops st).held (ownList key (ops.map (fun op => op.queue.privateKey)))
      = st.held (ownList key (ops.map (fun op => op.queue.privateKey))) + pushed ops ∧
    (∀ k, ownList key (ops.map (fun op => op.queue.privateKey)) k = false →
      (runOps ops st).get k = st.get k) ∧
    (runOps ops st).elems = st.elems + pushed ops ∧
    (∀ (q : RedisListQueue) (data : GoString) (s : Store),
      ((QueueOp.push q data).apply s).get q.key = data :: s.get q.key ∧
      (∀ k, k ≠ q.key → ((QueueOp.push q data).apply s).get k = s.get k) ∧
      ((QueueOp.push q data).apply s).elems = data ::ₘ s.elems) ∧
    (∀ (q : RedisListQueue) (s : Store), q.privateKey ≠ q.key →
      (∀ l v, s.get q.key = l ++ [v] →
        ((QueueOp.pop q).apply s).get q.key = l ∧
        ((QueueOp.pop q).apply s).get q.privateKey = v :: s.get q.privateKey) ∧
      (s.get q.key = [] → (QueueOp.pop q).apply s = s) ∧
      (∀ k, k ≠ q.key → k ≠ q.privateKey → ((QueueOp.pop q).apply s).get k = s.get k) ∧
      ((QueueOp.pop q).apply s).elems = s.elems) ∧
    (∀ (q : RedisListQueue) (interval : Int) (clock : Nat → Int) (n : Nat) (s : Store),
      ((QueueOp.returnElements q interval clock n).apply s).elems = s.elems ∧
      (∀ k, k ≠ q.key → globMatch (q.key ++ TimestampSeparator ++ [42]) k = false →
        ((QueueOp.returnElements q interval clock n).apply s).get k = s.get k)) := by
  have hpriv : ∀ op ∈ ops, op.queue.privateKey ∈ ops.map (fun op => op.queue.privateKey) :=
    fun op hop => List.mem_map.mpr ⟨op, hop, rfl⟩
  have hframe := fun k => get_runOps_other ops st key _ k hkey hpriv
  refine ⟨held_of_frame st _ _ _ (elems_runOps ops st) hframe, hframe, elems_runOps ops st,
    ?_, ?_, ?_⟩
  · intro q data s
    refine ⟨?_, ?_, elems_LPush _ _ _⟩
    · simp only [QueueOp.apply, RedisListQueue.Push, LPush]
      exact Store.get_set_self _ _ _
    · intro k hk
      simp only [QueueOp.apply, RedisListQueue.Push, LPush]
      exact Store.get_set_ne _ _ _ _ hk
  · intro q s hq
    refine ⟨?_, ?_, ?_, elems_Pop q s⟩
    · intro l v h
      obtain ⟨_, h2, h3, _⟩ := RedisListQueue.Pop_tail_lists q hq s l v h
      exact ⟨h2, h3⟩
    · intro h
      simp only [QueueOp.apply, RedisListQueue.Pop_empty q s h]
    · intro k h1 h2
      have := get_RPopLPush_other q.key q.privateKey k s h1 h2
      simp only [QueueOp.apply, RedisListQueue.Pop, BRPopLPush]
      generalize RPopLPush q.key q.privateKey s = r at this ⊢
      obtain ⟨st1, raw, err⟩ := r
      simp only at this ⊢
      split <;> exact this
  · intro q interval clock n s
    exact ⟨elems_returnLoop _ _ _ _ _ _, fun k h1 h2 => get_returnLoop_other _ _ _ _ _ _ _ h1 h2⟩

theorem no_element_lost_or_duplicated_witness :
    (∀ op ∈ [QueueOp.push (NewRedisListQueue (ascii "q") 5) (ascii "a"),
        QueueOp.pop (NewRedisListQueue (ascii "q") 5),
        QueueOp.returnElements (NewRedisListQueue (ascii "q") 7) 0 (fun _ => 9) 3],
      op.queue.key = ascii "q") ∧
    (runOps [QueueOp.push (NewRedisListQueue (ascii "q") 5) (ascii "a"),
        QueueOp.pop (NewRedisListQueue (ascii "q") 5),
        QueueOp.returnElements (NewRedisListQueue (ascii "q") 7) 0 (fun _ => 9) 3] []).elems
      = Store.elems [] + pushed [QueueOp.push (NewRedisListQueue (ascii "q") 5) (ascii "a"),
        QueueOp.pop (NewRedisListQueue (ascii "q") 5),
        QueueOp.returnElements (NewRedisListQueue (ascii "q") 7) 0 (fun _ => 9) 3] :=
  ⟨by decide,
   (no_element_lost_or_duplicated (ascii "q") _ [] (by decide)).2.2.1⟩

/-- Claim C6 at its failing input: `Error()` has been called, a job of kind `"D"`
whose `Done` returns the error `"bad"` (and one of kind `"U"` whose `Unmarshal`
returns `"bad json"`) is pushed, the loop finishes its cycle and the goroutine
then runs to its end. The job was handed to its assistant and all goroutines have
finished, yet the error channel holds only the nil that the loop sent: the
returned error is not delivered. -/
theorem returned_error_not_delivered :
    ((exec (oneJob { Name := ascii "D", Marshal := (ascii "y", none) })
        (System.init (NewRedisListQueue (ascii "q") 5) 1 [failDone, failUnmarshal] [])).map
      (fun s => (s.dispatched, s.jobs)) = some ([(ascii "D", ascii "y")], []) ∧
     (exec (oneJob { Name := ascii "D", Marshal := (ascii "y", none) })
        (System.init (NewRedisListQueue (ascii "q") 5) 1 [failDone, failUnmarshal] [])).map
      (fun s => (s.errors, s.loop)) = some ([none], LoopPC.top)) ∧
    ((exec (oneJob { Name := ascii "U", Marshal := (ascii "y", none) })
        (System.init (NewRedisListQueue (ascii "q") 5) 1 [failDone, failUnmarshal] [])).map
      (fun s => (s.dispatched, s.jobs)) = some ([(ascii "U", ascii "y")], []) ∧
     (exec (oneJob { Name := ascii "U", Marshal := (ascii "y", none) })
        (System.init (NewRedisListQueue (ascii "q") 5) 1 [failDone, failUnmarshal] [])).map
      (fun s => (s.errors, s.loop)) = some ([none], LoopPC.top)) :=
  ⟨⟨rfl, rfl⟩, ⟨rfl, rfl⟩⟩

/-- Claim C7, as stated, fails. First, when `Error()` was never called, the panic
of job A is recovered but surfaces nowhere: after both jobs were dispatched there
is no error channel. Second, when the channel already holds 32 unread values, the
loop waits in its send after spawning A, the goroutine of A waits in its own send,
and B stays in the shared list. Third, when it holds 31 unread values, the value
the loop sends after A's cycle takes the last place: the goroutine of A waits in
its send with the panic undelivered, still holding the only token, and the loop
waits for that token with B popped but not dispatched. -/
theorem panic_not_surfaced :
    ((exec twoJobs.tail
        (System.init (NewRedisListQueue (ascii "q") 5) 1 [panicA, handleB] jobsAB)).map
      (fun s => (s.errors, s.q.err.isSome)) = some ([], false) ∧
     (exec twoJobs.tail
        (System.init (NewRedisListQueue (ascii "q") 5) 1 [panicA, handleB] jobsAB)).map
      (fun s => s.dispatched) = some [(ascii "A", ascii "x"), (ascii "B", ascii "y")]) ∧
    ((exec (.callError :: polls32 ++
          [.push { Name := ascii "A", Marshal := (ascii "x", none) },
           .push { Name := ascii "B", Marshal := (ascii "y", none) },
           .loop, .loop, .loop, .job 0])
        (System.init (NewRedisListQueue (ascii "q") 5) 1 [panicA, handleB] [])).map
      (fun s => (s.errors.length, s.loop, s.store.get (ascii "q")))
      = some (32, LoopPC.send none, [ascii "B#|y"]) ∧
     (exec (.callError :: polls32 ++
          [.push { Name := ascii "A", Marshal := (ascii "x", none) },
           .push { Name := ascii "B", Marshal := (ascii "y", none) },
           .loop, .loop, .loop, .job 0])
        (System.init (NewRedisListQueue (ascii "q") 5) 1 [panicA, handleB] [])).map
      (fun s => (s.jobs, (step .loop s).isNone, (step (.job 0) s).isNone))
      = some ([{ cycle := 33, pc := JobPC.deferred (some (GoError.Errorf "boom")) }],
          true, true)) ∧
    ((exec (.callError :: polls31 ++
          [.push { Name := ascii "A", Marshal := (ascii "x", none) },
           .push { Name := ascii "B", Marshal := (ascii "y", none) },
           .loop, .loop, .loop, .loop, .job 0, .loop])
        (System.init (NewRedisListQueue (ascii "q") 5) 1 [panicA, handleB] [])).map
      (fun s => (s.errors.length, s.errors.contains (some (GoError.Errorf "boom")),
        s.dispatched))
      = some (32, false, [(ascii "A", ascii "x")]) ∧
     (exec (.callError :: polls31 ++
          [.push { Name := ascii "A", Marshal := (ascii "x", none) },
           .push { Name := ascii "B", Marshal := (ascii "y", none) },
           .loop, .loop, .loop, .loop, .job 0, .loop])
        (System.init (NewRedisListQueue (ascii "q") 5) 1 [panicA, handleB] [])).map
      (fun s => (s.loop, s.tokens, (step .loop s).isNone, (step (.job 0) s).isNone))
      = some (LoopPC.acquire (ascii "B") (ascii "y"), 1, true, true)) :=
  ⟨⟨rfl, rfl⟩, ⟨rfl, rfl⟩, ⟨rfl, rfl⟩⟩

/-- Claim C7, amended: take a dispatcher with `maxConcurrency ≥ 1` whose error
channel was requested through `Error()` and holds at most 30 unread values, and
jobs A and B with well-formed envelopes, B pushed after A and of a registered
kind, the handler of A panicking with `v`. The loop pops A and spawns its
goroutine; then, in whatever order the next four steps of the loop and the three
steps of that goroutine are taken, once B's goroutine has started the panic has
been recovered and delivered on the error channel as `recoverError v`, the loop is
alive and not cancelled, B has been popped from the shared list and dispatched to
its assistant, and only B's token is held. With `maxConcurrency ≥ 2` every such
order is a run; with `maxConcurrency = 1` the loop waits for A's token before it
spawns B's goroutine, as in the order where A's goroutine ends first. -/
theorem panic_isolated (key : GoString) (now : Int) (k : Nat) (assistants : List Assistanter)
    (unread : List (Option GoError)) (store : Store) (rest : List GoString)
    (nameA rawA nameB rawB : GoString) (v : PanicValue)
    (hk : 1 ≤ k) (hroom : unread.length ≤ 30)
    (hstore : store.get key
      = rest ++ [signQueueDataFormat nameB rawB, signQueueDataFormat nameA rawA])
    (hA1 : Contains nameA signQueueData = false) (hA2 : Contains rawA signQueueData = false)
    (hB1 : Contains nameB signQueueData = false) (hB2 : Contains rawB signQueueData = false)
    (hpanic : (jobBody (System.requested (NewRedisListQueue key now) k assistants unread
      store).q nameA rawA).panicked = some v)
    (hB : (jobBody (System.requested (NewRedisListQueue key now) k assistants unread
      store).q nameB rawB).found = true) :
    (∀ sched : List Bool, sched.count true = 4 → sched.count false = 3 → ∀ s,
      exec ([Action.loop, Action.loop] ++ interleaving sched ++ [Action.job 0])
        (System.requested (NewRedisListQueue key now) k assistants unread store) = some s →
      some (recoverError v) ∈ s.errors ∧ s.errors.length = unread.length + 2 ∧
      s.loop = LoopPC.ret ∧ s.cancelled = false ∧
      s.dispatched = [(nameA, rawA), (nameB, rawB)] ∧ s.tokens = 1 ∧
      s.store.get key = rest) ∧
    (2 ≤ k → ∀ sched : List Bool, sched.count true = 4 → sched.count false = 3 →
      (exec ([Action.loop, Action.loop] ++ interleaving sched ++ [Action.job 0])
        (System.requested (NewRedisListQueue key now) k assistants unread store)).isSome
        = true) ∧
    (exec ([Action.loop, Action.loop] ++
        interleaving [true, true, true, false, false, false, true] ++ [Action.job 0])
      (System.requested (NewRedisListQueue key now) k assistants unread store)).isSome
      = true := by
  obtain ⟨f1, f2, f3⟩ := requested_fields (NewRedisListQueue key now) k assistants unread store
  have h := panic_runs
    (System.requested (NewRedisListQueue key now) k assistants unread store).q
    (by rw [f1]; exact NewRedisListQueue_privateKey_ne key now)
    (by rw [f2])
    (by rw [f2]; exact hk)
    unread hroom f3 store rest nameA rawA nameB rawB v
    (by rw [f1]; exact hstore)
    hA1 hA2 hB1 hB2 hpanic hB
  have hkey : (System.requested (NewRedisListQueue key now) k assistants unread
      store).q.queue.key = key := by
    rw [f1]
    rfl
  have hcap : (System.requested (NewRedisListQueue key now) k assistants unread
      store).q.maxConcurrency.cap = k := by
    rw [f2]
  rw [hkey, hcap] at h
  exact h

theorem panic_isolated_witness :
    (exec ([Action.loop, Action.loop] ++
        interleaving [true, true, true, false, false, false, true] ++ [Action.job 0])
      (System.requested (NewRedisListQueue (ascii "q") 5) 1 [panicA, handleB] [none]
        jobsAB)).isSome = true ∧
    ∀ s, exec ([Action.loop, Action.loop] ++
        interleaving [true, false, true, false, true, false, true] ++ [Action.job 0])
      (System.requested (NewRedisListQueue (ascii "q") 5) 1 [panicA, handleB] [none]
        jobsAB) = some s →
      some (GoError.Errorf "boom") ∈ s.errors ∧ s.errors.length = 3 ∧
      s.loop = LoopPC.ret ∧ s.cancelled = false ∧
      s.dispatched = [(ascii "A", ascii "x"), (ascii "B", ascii "y")] ∧ s.tokens = 1 ∧
      s.store.get (ascii "q") = [] :=
  ⟨(panic_isolated (ascii "q") 5 1 [panicA, handleB] [none] jobsAB [] (ascii "A") (ascii "x")
      (ascii "B") (ascii "y") (.other "boom") (by decide) (by decide) (by decide) (by decide)
      (by decide) (by decide) (by decide) (by decide) (by decide)).2.2,
   (panic_isolated (ascii "q") 5 1 [panicA, handleB] [none] jobsAB [] (ascii "A") (ascii "x")
      (ascii "B") (ascii "y") (.other "boom") (by decide) (by decide) (by decide) (by decide)
      (by decide) (by decide) (by decide) (by decide) (by decide)).1
      [true, false, true, false, true, false, true] (by decide) (by decide)⟩

/-- Claim C8, as stated, fails: an idle dispatcher whose error channel is never
read sends the queue-empty error of each cycle; after 32 cycles the channel holds
32 values, the loop is not cancelled, and in the next cycle its send cannot
complete without a reader. -/
theorem full_error_channel_stalls_loop :
    (exec (.callError :: polls32 ++ [.loop])
        (System.init (NewRedisListQueue (ascii "q") 5) 1 [] [])).map
      (fun s => (s.errors.length, s.loop, s.cancelled))
      = some (32, LoopPC.send (some GoError.QueueNilErr), false) ∧
    (exec (.callError :: polls32 ++ [.loop, .loop])
        (System.init (NewRedisListQueue (ascii "q") 5) 1 [] [])).isNone = true := by
  decide

/-- Claim C8, amended: in every state a running dispatcher can reach, the error
channel has capacity 32 and a send on it is a blocking send: with fewer than 32
unread values the send of the loop and the send of a panicking job's goroutine
complete at once and append the value; with 32 unread values both wait for a
reader. The loop has stopped only if the context was cancelled. -/
theorem error_channel_send (queue : RedisListQueue) (k : Nat) (assistants : List Assistanter)
    (store : Store) (acts : List Action) (s : System)
    (h : exec acts (System.init queue k assistants store) = some s) :
    (∀ ch, s.q.err = some ch → ch.cap = 32) ∧
    (∀ e ch, s.loop = LoopPC.send e → s.q.err = some ch →
      (ch.buf.length < 32 →
        ∃ s1, step .loop s = some s1 ∧ s1.loop = LoopPC.top ∧ s1.errors = s.errors ++ [e]) ∧
      (ch.buf.length = 32 → step .loop s = none)) ∧
    (∀ i j e ch, s.jobs[i]? = some j → j.pc = JobPC.deferred (some e) → s.q.err = some ch →
      (ch.buf.length < 32 →
        ∃ s1, step (.job i) s = some s1 ∧ s1.errors = s.errors ++ [some e]) ∧
      (ch.buf.length = 32 → step (.job i) s = none)) ∧
    (s.loop = LoopPC.stopped → s.cancelled = true) := by
  obtain ⟨_, _, _, hcap, hstop⟩ := Inv_exec k acts _ s (Inv_init queue k assistants store) h
  refine ⟨hcap, ?_, ?_, hstop⟩
  · intro e ch hl he
    have hc := hcap ch he
    refine ⟨fun hlt => ?_, fun heq => ?_⟩
    · exact loopStep_send_room s e ch hl he (by omega)
    · exact loopStep_send_full s e ch hl he (by omega)
  · intro i j e ch hj hpc he
    have hc := hcap ch he
    refine ⟨fun hlt => ?_, fun heq => ?_⟩
    · obtain ⟨s1, e1, _, _, _, e5⟩ := jobStep_deferred s i j (some e) hj hpc
        (fun _ c hc2 => by
          rw [he] at hc2
          simp only [Option.some.injEq] at hc2
          subst hc2
          omega)
      exact ⟨s1, e1, e5 e ch rfl he⟩
    · exact jobStep_report_full s i j e ch hj hpc he (by omega)

theorem error_channel_send_witness :
    exec [.callError, .cancel, .loop] (System.init (NewRedisListQueue (ascii "q") 5) 1 [] [])
      = some { System.init (NewRedisListQueue (ascii "q") 5) 1 [] [] with
          q := (System.init (NewRedisListQueue (ascii "q") 5) 1 [] []).q.Error,
          cancelled := true, loop := LoopPC.stopped } ∧
    ∀ ch, (System.init (NewRedisListQueue (ascii "q") 5) 1 [] []).q.Error.err = some ch →
      ch.cap = 32 :=
  ⟨rfl, (error_channel_send (NewRedisListQueue (ascii "q") 5) 1 [] []
      [.callError, .cancel, .loop] _ rfl).1⟩

/-- Claim C9, as stated, fails on the panic path while the error channel is full:
the channel holds 32 unread values, job A is dispatched and its handler panics.
The handler has finished, but the goroutine stands in its deferred send, before
`<-q.maxConcurrency`: the token is still held, and neither the goroutine nor the
loop can take a step until a reader comes. -/
theorem panicked_job_keeps_token :
    (exec (.callError :: polls32 ++
          [.push { Name := ascii "A", Marshal := (ascii "x", none) },
           .loop, .loop, .job 0, .loop])
        (System.init (NewRedisListQueue (ascii "q") 5) 1 [panicA] [])).map
      (fun s => (s.tokens, s.jobs, s.errors.length))
      = some (1, [{ cycle := 33, pc := JobPC.deferred (some (GoError.Errorf "boom")) }], 32) ∧
    (exec (.callError :: polls32 ++
          [.push { Name := ascii "A", Marshal := (ascii "x", none) },
           .loop, .loop, .job 0, .loop])
        (System.init (NewRedisListQueue (ascii "q") 5) 1 [panicA] [])).map
      (fun s => (s.dispatched, (step .loop s).isNone, (step (.job 0) s).isNone))
      = some ([(ascii "A", ascii "x")], true, true) :=
  ⟨rfl, rfl⟩

/-- Claim C9, amended: in every state that a dispatcher built with
`maxConcurrency = k` can reach, every live job goroutine holds one token and at
most `k` tokens are held, so at most `k` handlers run at once and no token is
held once all goroutines have exited. The token is acquired in the step that
starts the goroutine, which waits while `k` tokens are held. Every goroutine,
whatever its body does (no assistant, unmarshal error, handler error, success,
panic), reaches its exit within three of its own steps and gives its token back
there, provided that a goroutine with a recovered panic to report finds room in
the error channel; while that channel is full such a goroutine waits in its send
and keeps its token. -/
theorem bounded_concurrency (queue : RedisListQueue) (k : Nat) (assistants : List Assistanter)
    (store : Store) (acts : List Action) (s : System)
    (h : exec acts (System.init queue k assistants store) = some s) :
    s.jobs.length = s.tokens ∧ s.tokens ≤ k ∧ (s.jobs = [] → s.tokens = 0) ∧
    (∀ kind raw, s.loop = LoopPC.acquire kind raw →
      (s.tokens < k → ∃ s1, step .loop s = some s1 ∧ s1.tokens = s.tokens + 1 ∧
        s1.jobs = s.jobs ++ [{ cycle := s.cycle, pc := JobPC.start kind raw }]) ∧
      (s.tokens = k → step .loop s = none)) ∧
    (∀ i j, s.jobs[i]? = some j →
      (j.sends s.q = true → ∀ ch, s.q.err = some ch → ch.buf.length < ch.cap) →
      ∃ n, n ≤ 3 ∧ ∃ s1, exec (List.replicate n (Action.job i)) s = some s1 ∧
        s1.tokens + 1 = s.tokens ∧ s1.jobs.length + 1 = s.jobs.length) ∧
    (∀ i j e ch, s.jobs[i]? = some j → j.pc = JobPC.deferred (some e) → s.q.err = some ch →
      ch.cap ≤ ch.buf.length → step (.job i) s = none) := by
  obtain ⟨hc, hj, hle, _, _⟩ := Inv_exec k acts _ s (Inv_init queue k assistants store) h
  refine ⟨hj, hle, ?_, ?_, ?_, ?_⟩
  · intro he
    rw [← hj, he]
    rfl
  · intro kind raw hl
    refine ⟨fun hlt => ?_, fun heq => ?_⟩
    · have hlt2 : s.q.maxConcurrency.buf.length < s.q.maxConcurrency.cap := by
        rw [hc]; exact hlt
      refine ⟨⟨⟨s.q.queue, ⟨s.q.maxConcurrency.cap, s.q.maxConcurrency.buf ++ [()]⟩,
          s.q.assistants, s.q.err⟩, s.store, s.cancelled, LoopPC.ret, s.cycle, s.errVar,
          s.jobs ++ [⟨s.cycle, JobPC.start kind raw⟩], s.dispatched⟩, ?_, ?_, ?_⟩
      · simp only [step, loopStep, hl, Chan.send, hlt2, if_true]
      · simp [System.tokens]
      · rfl
    · have hge : ¬ s.q.maxConcurrency.buf.length < s.q.maxConcurrency.cap := by
        rw [hc]
        simp only [System.tokens] at heq
        omega
      simp [step, loopStep, hl, Chan.send, hge]
  · intro i j hi room
    exact job_exit s i j hi hj room
  · intro i j e ch hi hpc he hfull
    exact jobStep_report_full s i j e ch hi hpc he hfull

theorem bounded_concurrency_witness :
    ∃ s, exec (oneJob { Name := ascii "D", Marshal := (ascii "y", none) }).dropLast
        (System.init (NewRedisListQueue (ascii "q") 5) 1 [failDone] []) = some s ∧
      s.jobs.length = s.tokens ∧ s.tokens ≤ 1 :=
  (Option.isSome_iff_exists.mp
    (by decide : (exec (oneJob { Name := ascii "D", Marshal := (ascii "y", none) }).dropLast
      (System.init (NewRedisListQueue (ascii "q") 5) 1 [failDone] [])).isSome = true)).elim
    (fun s hs => ⟨s, hs, (bounded_concurrency _ 1 [failDone] [] _ s hs).1,
      (bounded_concurrency _ 1 [failDone] [] _ s hs).2.1⟩)

/-- Claim C10 at its failing input: the key space holds 101 keys `"q:@w0"` to
`"q:@w100"` that all match the scan pattern `"q:@*"` and whose last field is not a
number. The first scan page holds 100 of them and a non-zero cursor, every key is
skipped, and the next scan starts at cursor 0 again: for every interval, every
clock and every number of loop iterations `ReturnElements` is still running, with
the store unchanged, in both queue variants. -/
theorem ReturnElements_never_returns (interval : Int) (clock : Nat → Int) (n : Nat) :
    staleStore.length = 101 ∧
    (staleStore.keys.all (globMatch (ascii "q" ++ TimestampSeparator ++ [42]))) = true ∧
    (NewRedisListQueue (ascii "q") 2000).ReturnElements interval clock n staleStore
      = (staleStore, none) ∧
    (NewRedisQueue (ascii "q") 2000).ReturnElements interval clock n staleStore
      = (staleStore, none) := by
  have h := returnLoop_stuck (ascii "q") interval clock staleStore (staleStore.keys.take 100)
    100 staleStore_scan (by decide) (by decide) staleStore_unparsable n 0
  exact ⟨by decide, staleStore_match, h, h⟩

end Queue
